import Mathlib

/-!
# The builtin scheduler plugin of SLURM (src/plugins/sched/builtin/builtin.c)

A shallow embedding of `_load_config`, `_compute_start_times` and `builtin_agent`,
followed by theorems about the budget, skipping, heartbeat and node-window
behaviour of one scheduling pass, about configuration loading, and about the
spacing of passes, stopping and reconfiguration of the agent.  The host list
conversion of the wiki2 plugin is embedded in the namespace `Wiki2` further down.

Conventions of the embedding

* C `int` and `time_t` values are `Int`; `uint32_t` node counts are `Nat`
  (the pass only compares and copies them, it never does arithmetic on them).
  What `atoi` returns is reduced to the 32 bits of an `int`.
  The counter `job_cnt` is advanced at most once per queue record, so it stays
  far below the range of `int` and is not reduced modulo 2^32.
* Pointers to partition records are addresses (`Nat`); the partition table is
  read through `Host.part`.  Comparing two `part_ptr` values compares addresses.
* The functions the pass calls but which live elsewhere in slurmctld
  (`time`, `job_test_resv`, `select_g_job_test`) are fields of `Host`; they act
  on an arbitrary host state `σ`, so every clock and oracle behaviour is covered.
* The state of a pass carries a `trace`, a ghost log of every oracle call and of
  every write to `last_job_update`, tagged with the position of the queue record
  being processed.  The trace is never read by the embedded code.  The state of
  the agent carries a ghost `log` of loads, lock operations and passes likewise.
* The agent runs in a thread of its own.  What other threads do to it, calling
  `stop_builtin_agent` or `builtin_reconfig`, is given to each loop iteration as
  two lists of calls: those made until the agent has woken from its sleep and
  those made from then to the end of the iteration.
* `difftime` is a subtraction of whole seconds (its `double` result is exact
  for readings of `time(NULL)`).
-/

namespace SchedBuiltin

/-! ## Macros and constants of headers outside this tree -/

/-- The macro `MAX(a,b)` of src/common/macros.h: `((a) > (b) ? (a) : (b))`. -/
def MAX {α : Type} [LT α] [DecidableRel (fun (a b : α) => a < b)] (a b : α) : α :=
  if a > b then a else b

/-- The macro `MIN(a,b)` of src/common/macros.h: `((a) < (b) ? (a) : (b))`. -/
def MIN {α : Type} [LT α] [DecidableRel (fun (a b : α) => a < b)] (a b : α) : α :=
  if a < b then a else b

/-- The return code `SLURM_SUCCESS` of slurm/slurm_errno.h. -/
def SLURM_SUCCESS : Int := 0

/-- The default of the file-scope variable `backfill_interval` (builtin.c:68-70, 78). -/
def BACKFILL_INTERVAL : Int := 30

/-! ## Data model -/

/-- A node bitmap (`bitstr_t`); the pass only hands it from one oracle to the other. -/
abbrev bitstr_t := List Bool

/-- The fields of `struct part_record` that the pass reads. -/
structure part_record where
  min_nodes : Nat
  max_nodes : Nat
deriving DecidableEq, Repr

/-- The fields of `struct job_details` that the pass reads. -/
structure job_details where
  min_nodes : Nat
  max_nodes : Nat
deriving DecidableEq, Repr

/-- The fields of `struct job_record` that the pass reads: `part_ptr` is the
address of the job's default partition. -/
structure job_record where
  job_id : Nat
  part_ptr : Nat
  details : job_details
deriving DecidableEq, Repr

/-- A record of the job queue, `job_queue_rec_t`: a job and the address of the
partition under which this record asks for the job to be tested. -/
structure job_queue_rec_t where
  job_ptr : job_record
  part_ptr : Nat
deriving DecidableEq, Repr

/-- The file-scope variables of builtin.c (lines 73-80). -/
structure Globals where
  stop_builtin : Bool
  config_flag : Bool
  backfill_interval : Int
  max_backfill_job_cnt : Int
  sched_timeout : Int
deriving DecidableEq, Repr

/-- The initial values of the file-scope variables (builtin.c:73-80). -/
def Globals.init : Globals :=
  { stop_builtin := false, config_flag := false, backfill_interval := BACKFILL_INTERVAL,
    max_backfill_job_cnt := 50, sched_timeout := 0 }

/-- The services of slurmctld that a pass uses, over a host state `σ`.

* `part a` is the partition record at address `a`.
* `time` is `time(NULL)`; it returns the reading and the host state afterwards.
* `job_test_resv job when bitmap` is `job_test_resv(job_ptr, &now, true, &avail_bitmap)`:
  it receives the current values of `now` and `avail_bitmap` and returns the return
  code, the value it leaves in `now`, and the value it leaves in `avail_bitmap`.
* `select_g_job_test job bitmap min max req` is the call of builtin.c:186-189 (mode
  `SELECT_MODE_WILL_RUN`, no preemptee candidates); it returns the return code. -/
structure Host (σ : Type) where
  part : Nat → part_record
  time : σ → Int × σ
  job_test_resv : job_record → Int → Option bitstr_t → σ → (Int × Int × Option bitstr_t) × σ
  select_g_job_test : job_record → Option bitstr_t → Nat → Nat → Nat → σ → Int × σ

/-- What one entry of the ghost trace records. -/
inductive Call where
  | job_test_resv (when_in : Int) (rc : Int) (when_out : Int)
  | select_g_job_test (min_nodes max_nodes req_nodes : Nat) (rc : Int)
  | last_job_update (value : Int)
deriving DecidableEq, Repr

/-- An entry of the ghost trace: the position `idx` of the queue record being processed
(0 for the record popped first), the record itself, and what was done. -/
structure Event where
  idx : Nat
  entry : job_queue_rec_t
  call : Call
deriving DecidableEq, Repr

/-- The state of a running pass: the locals of `_compute_start_times` that live across
loop iterations (`job_cnt`, `now`, `sched_start`, `avail_bitmap`), the slurmctld global
`last_job_update`, the host state, and the ghost trace. -/
structure PassState (σ : Type) where
  job_cnt : Int
  now : Int
  sched_start : Int
  avail_bitmap : Option bitstr_t
  last_job_update : Int
  host : σ
  trace : List Event

/-- How a loop iteration ends: `next` for `continue` or falling off the end of the body,
`stop` for `break`. -/
inductive Flow where
  | next
  | stop
deriving DecidableEq, Repr

/-! ## `_compute_start_times` (builtin.c:133-199) -/

/-- The local `min_nodes` (builtin.c:161-162). -/
def min_nodes (job_ptr : job_record) (part : part_record) : Nat :=
  MAX job_ptr.details.min_nodes part.min_nodes

/-- The local `max_nodes` (builtin.c:164-170). -/
def max_nodes (job_ptr : job_record) (part : part_record) : Nat :=
  let max_nodes :=
    if job_ptr.details.max_nodes = 0 then part.max_nodes
    else MIN job_ptr.details.max_nodes part.max_nodes
  MIN max_nodes 500000

/-- The local `req_nodes` (builtin.c:172-175). -/
def req_nodes (job_ptr : job_record) (part : part_record) : Nat :=
  if job_ptr.details.max_nodes ≠ 0 then max_nodes job_ptr part else min_nodes job_ptr part

/-- The body of the while loop (builtin.c:149-196) for the record popped at position `idx`. -/
def loop_body {σ : Type} (H : Host σ) (g : Globals) (idx : Nat)
    (job_queue_rec : job_queue_rec_t) (s : PassState σ) : Flow × PassState σ :=
  let job_ptr := job_queue_rec.job_ptr
  let part_ptr := job_queue_rec.part_ptr
  if part_ptr ≠ job_ptr.part_ptr then
    (Flow.next, s)
  else
    -- if (job_cnt++ > max_backfill_job_cnt) break;
    let s1 := { s with job_cnt := s.job_cnt + 1 }
    if s.job_cnt > g.max_backfill_job_cnt then
      (Flow.stop, s1)
    else if min_nodes job_ptr (H.part part_ptr) > max_nodes job_ptr (H.part part_ptr) then
      (Flow.next, s1)
    else
      -- j = job_test_resv(job_ptr, &now, true, &avail_bitmap);
      let r := H.job_test_resv job_ptr s1.now s1.avail_bitmap s1.host
      let s2 := { s1 with
        now := r.1.2.1, avail_bitmap := r.1.2.2, host := r.2,
        trace := s1.trace ++ [Event.mk idx job_queue_rec (Call.job_test_resv s1.now r.1.1 r.1.2.1)] }
      if r.1.1 ≠ SLURM_SUCCESS then
        (Flow.next, s2)
      else
        -- rc = select_g_job_test(job_ptr, avail_bitmap, min_nodes, max_nodes, req_nodes, ...);
        let p := H.select_g_job_test job_ptr s2.avail_bitmap
          (min_nodes job_ptr (H.part part_ptr)) (max_nodes job_ptr (H.part part_ptr))
          (req_nodes job_ptr (H.part part_ptr)) s2.host
        -- last_job_update = now; FREE_NULL_BITMAP(avail_bitmap);
        let s3 := { s2 with
          last_job_update := s2.now, avail_bitmap := none, host := p.2,
          trace := s2.trace ++
            [Event.mk idx job_queue_rec
               (Call.select_g_job_test (min_nodes job_ptr (H.part part_ptr))
                 (max_nodes job_ptr (H.part part_ptr)) (req_nodes job_ptr (H.part part_ptr)) p.1),
             Event.mk idx job_queue_rec (Call.last_job_update s2.now)] }
        -- if ((time(NULL) - sched_start) >= sched_timeout) break;
        let t := H.time s3.host
        let s4 := { s3 with host := t.2 }
        if t.1 - s4.sched_start ≥ g.sched_timeout then (Flow.stop, s4) else (Flow.next, s4)

/-- The while loop of builtin.c:147-197.  The job queue is given as the list of its
records in the order in which `list_pop_bottom(job_queue, sort_job_queue2)` hands them
out; `idx` is the position of the head of the list in the whole queue. -/
def while_loop {σ : Type} (H : Host σ) (g : Globals) :
    Nat → List job_queue_rec_t → PassState σ → PassState σ
  | _, [], s => s
  | idx, job_queue_rec :: job_queue, s =>
    match loop_body H g idx job_queue_rec s with
    | (Flow.next, s1) => while_loop H g (idx + 1) job_queue s1
    | (Flow.stop, s1) => s1

/-- The state in which the loop is entered (builtin.c:135-146): `now = time(NULL)`,
`sched_start = now`, `job_cnt = 0`, `avail_bitmap = NULL`. -/
def pass_init {σ : Type} (H : Host σ) (last_job_update : Int) (host : σ) : PassState σ :=
  let t := H.time host
  { job_cnt := 0, now := t.1, sched_start := t.1, avail_bitmap := none,
    last_job_update := last_job_update, host := t.2, trace := [] }

/-- The function `_compute_start_times` (builtin.c:133-199); `job_queue` is what
`build_job_queue()` returns, in pop order. -/
def _compute_start_times {σ : Type} (H : Host σ) (g : Globals)
    (job_queue : List job_queue_rec_t) (last_job_update : Int) (host : σ) : PassState σ :=
  while_loop H g 0 job_queue (pass_init H last_job_update host)

/-- The positions of the queue records that a trace shows as evaluated (an oracle was
consulted for them or the timestamp was written for them), without repetition. -/
def evaluated (trace : List Event) : List Nat :=
  (trace.map Event.idx).dedup

/-! ## `_load_config` (builtin.c:107-131) -/

/-- The C library function `strstr` on character lists: the suffix of `haystack` that starts
at the first occurrence of `needle`, if there is one. -/
def strstr : List Char → List Char → Option (List Char)
  | [], needle => if needle = [] then some [] else none
  | c :: cs, needle =>
    if needle.isPrefixOf (c :: cs) then some (c :: cs) else strstr cs needle

/-- The C library predicate `isspace` in the C locale. -/
def isspace (c : Char) : Bool :=
  c.toNat = 32 || (9 ≤ c.toNat && c.toNat ≤ 13)

/-- The value of the leading decimal digits of a character list, continuing from `acc`. -/
def digits_value : List Char → Int → Int
  | [], acc => acc
  | c :: cs, acc =>
    if 48 ≤ c.toNat ∧ c.toNat ≤ 57 then digits_value cs (acc * 10 + ((c.toNat : Int) - 48)) else acc

/-- The number that a string denotes to `strtol` in base 10: white space is skipped, an
optional sign is read, then the decimal digits that follow; 0 when there are none. -/
def numeral_value (s : List Char) : Int :=
  match s.dropWhile isspace with
  | '-' :: r => - digits_value r 0
  | '+' :: r => digits_value r 0
  | r => digits_value r 0

/-- The C library function `strtol(s, NULL, 10)` with a 64-bit `long`: the number read,
or `LONG_MAX` or `LONG_MIN` when the number lies beyond the range of `long`. -/
def strtol (s : List Char) : Int :=
  if numeral_value s > 9223372036854775807 then 9223372036854775807
  else if numeral_value s < -9223372036854775808 then -9223372036854775808
  else numeral_value s

/-- The C library function `atoi`, which is `(int) strtol(s, NULL, 10)`: the conversion
of the `long` to a 32-bit `int` keeps its low 32 bits, read in two's complement. -/
def atoi (s : List Char) : Int :=
  (strtol s + 2147483648) % 4294967296 - 2147483648

/-- Why `fatal()` was called in `_load_config`, with the offending value. -/
inductive Fatal where
  | invalid_interval (backfill_interval : Int)
  | invalid_max_job_bf (max_backfill_job_cnt : Int)
deriving DecidableEq, Repr

/-- The value of `backfill_interval` after builtin.c:117-118. -/
def load_interval (sched_params : Option (List Char)) (g : Globals) : Int :=
  match sched_params.bind (fun p => strstr p "interval=".toList) with
  | some tmp_ptr => atoi (tmp_ptr.drop 9)
  | none => g.backfill_interval

/-- The value of `max_backfill_job_cnt` after builtin.c:124-125. -/
def load_max_job_cnt (sched_params : Option (List Char)) (g : Globals) : Int :=
  match sched_params.bind (fun p => strstr p "max_job_bf=".toList) with
  | some tmp_ptr => atoi (tmp_ptr.drop 11)
  | none => g.max_backfill_job_cnt

/-- The function `_load_config` (builtin.c:107-131).  `msg_timeout` is what
`slurm_get_msg_timeout()` returns and `sched_params` what `slurm_get_sched_params()`
returns (`none` for NULL).  The result is `Except.error` when `fatal()` ends the
process, otherwise the file-scope variables after the load. -/
def _load_config (msg_timeout : Int) (sched_params : Option (List Char)) (g : Globals) :
    Except Fatal Globals :=
  let g1 := { g with sched_timeout := Int.tdiv msg_timeout 2 }
  let g2 := { g1 with sched_timeout := MAX g1.sched_timeout 1 }
  let g3 := { g2 with sched_timeout := MIN g2.sched_timeout 10 }
  let g4 := { g3 with backfill_interval := load_interval sched_params g3 }
  if g4.backfill_interval < 1 then
    Except.error (Fatal.invalid_interval g4.backfill_interval)
  else
    let g5 := { g4 with max_backfill_job_cnt := load_max_job_cnt sched_params g4 }
    if g5.max_backfill_job_cnt < 1 then
      Except.error (Fatal.invalid_max_job_bf g5.max_backfill_job_cnt)
    else
      Except.ok g5

/-! ## Observations used to state properties of one loop iteration -/

/-- What `job_test_resv` returns when it is called for `job_queue_rec` in state `s`
(builtin.c:182): return code, value left in `now`, value left in `avail_bitmap`, host state. -/
def resv_call {σ : Type} (H : Host σ) (job_queue_rec : job_queue_rec_t) (s : PassState σ) :
    (Int × Int × Option bitstr_t) × σ :=
  H.job_test_resv job_queue_rec.job_ptr s.now s.avail_bitmap s.host

/-- What `select_g_job_test` returns when it is called for `job_queue_rec` after the
reservation test made in state `s` (builtin.c:186-189). -/
def select_call {σ : Type} (H : Host σ) (job_queue_rec : job_queue_rec_t) (s : PassState σ) :
    Int × σ :=
  H.select_g_job_test job_queue_rec.job_ptr (resv_call H job_queue_rec s).1.2.2
    (min_nodes job_queue_rec.job_ptr (H.part job_queue_rec.part_ptr))
    (max_nodes job_queue_rec.job_ptr (H.part job_queue_rec.part_ptr))
    (req_nodes job_queue_rec.job_ptr (H.part job_queue_rec.part_ptr))
    (resv_call H job_queue_rec s).2

/-- The reading of `time(NULL)` in the test of builtin.c:193, made after the two oracle
calls for `job_queue_rec` that started in state `s`. -/
def time_check {σ : Type} (H : Host σ) (job_queue_rec : job_queue_rec_t) (s : PassState σ) :
    Int :=
  (H.time (select_call H job_queue_rec s).2).1

/-- The record is on its job's default partition, the job counter has not passed
`max_backfill_job_cnt`, and the node window is not empty: the iteration for
`job_queue_rec` in state `s` gets as far as calling `job_test_resv`. -/
def reaches_resv {σ : Type} (H : Host σ) (g : Globals) (job_queue_rec : job_queue_rec_t)
    (s : PassState σ) : Prop :=
  job_queue_rec.part_ptr = job_queue_rec.job_ptr.part_ptr ∧
  ¬ s.job_cnt > g.max_backfill_job_cnt ∧
  ¬ min_nodes job_queue_rec.job_ptr (H.part job_queue_rec.part_ptr) >
      max_nodes job_queue_rec.job_ptr (H.part job_queue_rec.part_ptr)

/-- The iteration for `job_queue_rec` in state `s` gets as far as calling
`select_g_job_test`: it reaches `job_test_resv`, which returns `SLURM_SUCCESS`. -/
def reaches_select {σ : Type} (H : Host σ) (g : Globals) (job_queue_rec : job_queue_rec_t)
    (s : PassState σ) : Prop :=
  reaches_resv H g job_queue_rec s ∧ (resv_call H job_queue_rec s).1.1 = SLURM_SUCCESS

/-- The event `e` can have been logged by the iteration for the record `r` popped at
position `i`: it carries that position and record, the record is on its job's default
partition with a non-empty node window, and a placement call carries the node counts
computed by builtin.c:160-175. -/
def emitted {σ : Type} (H : Host σ) (i : Nat) (r : job_queue_rec_t) (e : Event) : Prop :=
  e.idx = i ∧ e.entry = r ∧ r.part_ptr = r.job_ptr.part_ptr ∧
  min_nodes r.job_ptr (H.part r.part_ptr) ≤ max_nodes r.job_ptr (H.part r.part_ptr) ∧
  ∀ a b c rc, e.call = Call.select_g_job_test a b c rc →
    a = min_nodes r.job_ptr (H.part r.part_ptr) ∧
    b = max_nodes r.job_ptr (H.part r.part_ptr) ∧
    c = req_nodes r.job_ptr (H.part r.part_ptr)

/-! ## Concrete hosts, queues and settings used in examples -/

/-- A partition table: address 7 holds a partition of 1 to 4 nodes, address 8 a partition
whose `max_nodes` is 4294967295 (no limit), every other address a partition of 1 to 16 nodes. -/
def demo_part (a : Nat) : part_record :=
  if a = 7 then { min_nodes := 1, max_nodes := 4 }
  else if a = 8 then { min_nodes := 1, max_nodes := 4294967295 }
  else { min_nodes := 1, max_nodes := 16 }

/-- A host whose state is the clock reading.  Both oracles answer `SLURM_SUCCESS` at once
and `job_test_resv` leaves `now` as it found it. -/
def quick_host : Host Int where
  part := demo_part
  time := fun c => (c, c)
  job_test_resv := fun _ w _ c => ((SLURM_SUCCESS, w, some []), c)
  select_g_job_test := fun _ _ _ _ _ c => (SLURM_SUCCESS, c)

/-- A host whose state is the clock reading.  For job 0 `job_test_resv` takes 5 seconds and
fails (return code 1); for the other jobs both oracles answer `SLURM_SUCCESS` at once. -/
def slow_resv_host : Host Int where
  part := demo_part
  time := fun c => (c, c)
  job_test_resv := fun j w _ c =>
    if j.job_id = 0 then ((1, w, none), c + 5) else ((SLURM_SUCCESS, w, some []), c)
  select_g_job_test := fun _ _ _ _ _ c => (SLURM_SUCCESS, c)

/-- A host whose state is the clock reading.  `job_test_resv` succeeds at once;
`select_g_job_test` takes 5 seconds for job 0 and answers that it cannot be placed
(return code 1), and succeeds at once for the other jobs. -/
def slow_select_host : Host Int where
  part := demo_part
  time := fun c => (c, c)
  job_test_resv := fun _ w _ c => ((SLURM_SUCCESS, w, some []), c)
  select_g_job_test := fun j _ _ _ _ c => if j.job_id = 0 then (1, c + 5) else (SLURM_SUCCESS, c)

/-- A host whose state is the clock reading.  `job_test_resv` succeeds at once and moves
its time argument 100 seconds ahead; `select_g_job_test` succeeds at once. -/
def shifting_resv_host : Host Int where
  part := demo_part
  time := fun c => (c, c)
  job_test_resv := fun _ w _ c => ((SLURM_SUCCESS, w + 100, some []), c)
  select_g_job_test := fun _ _ _ _ _ c => (SLURM_SUCCESS, c)

/-- A queue record for job `id`: default partition 7, tested under partition 7, at least
one node, no explicit maximum. -/
def demo_rec (id : Nat) : job_queue_rec_t :=
  { job_ptr := { job_id := id, part_ptr := 7, details := { min_nodes := 1, max_nodes := 0 } },
    part_ptr := 7 }

/-- A queue record for job `id` under partition 8, which is not its default partition 7. -/
def other_part_rec (id : Nat) : job_queue_rec_t :=
  { job_ptr := { job_id := id, part_ptr := 7, details := { min_nodes := 1, max_nodes := 0 } },
    part_ptr := 8 }

/-- A queue record for job `id` asking for at least 10 nodes, no explicit maximum, in its
default partition 7 (which has at most 4 nodes). -/
def wide_rec (id : Nat) : job_queue_rec_t :=
  { job_ptr := { job_id := id, part_ptr := 7, details := { min_nodes := 10, max_nodes := 0 } },
    part_ptr := 7 }

/-- A queue record for job `id` with default partition 8 (no node limit), at least one
node, no explicit maximum. -/
def unlimited_rec (id : Nat) : job_queue_rec_t :=
  { job_ptr := { job_id := id, part_ptr := 8, details := { min_nodes := 1, max_nodes := 0 } },
    part_ptr := 8 }

/-- Settings with `max_backfill_job_cnt = 2` and `sched_timeout = 5`. -/
def two_job_globals : Globals :=
  { Globals.init with max_backfill_job_cnt := 2, sched_timeout := 5 }

/-- Settings with `max_backfill_job_cnt = 50` and `sched_timeout = 1`. -/
def one_second_globals : Globals :=
  { Globals.init with max_backfill_job_cnt := 50, sched_timeout := 1 }

/-! ## The agent: `stop_builtin_agent`, `_my_sleep`, `builtin_reconfig`, `builtin_agent` -/

/-- The function `stop_builtin_agent` (builtin.c:88-94), as it acts on the file-scope
variables: it sets `stop_builtin` (and signals `term_cond`). -/
def stop_builtin_agent (g : Globals) : Globals :=
  { g with stop_builtin := true }

/-- The function `builtin_reconfig` (builtin.c:202-205): it sets `config_flag`. -/
def builtin_reconfig (g : Globals) : Globals :=
  { g with config_flag := true }

/-- A call made by another thread while the agent runs. -/
inductive Request where
  | stop
  | reconfig
deriving DecidableEq, Repr

/-- The file-scope variables after other threads made the given calls, in order. -/
def deliver (g : Globals) : List Request → Globals
  | [] => g
  | Request.stop :: rs => deliver (stop_builtin_agent g) rs
  | Request.reconfig :: rs => deliver (builtin_reconfig g) rs

/-- The services of slurmctld that the agent uses besides those of a pass.

* `slurm_get_msg_timeout` and `slurm_get_sched_params` read the live configuration.
* `build_job_queue` is the job queue a pass would be given, in pop order.
* `pthread_cond_timedwait ts` is the wait of builtin.c:103 with `ts.tv_sec = ts`; it
  returns the host state in which the agent wakes up, be it at `ts`, on the signal of
  `stop_builtin_agent`, or earlier.
* `lock_slurmctld` and `unlock_slurmctld` take and release the locks of builtin.c:214-215. -/
structure AgentHost (σ : Type) where
  sched : Host σ
  slurm_get_msg_timeout : σ → Int
  slurm_get_sched_params : σ → Option (List Char)
  build_job_queue : σ → List job_queue_rec_t
  pthread_cond_timedwait : Int → σ → σ
  lock_slurmctld : σ → σ
  unlock_slurmctld : σ → σ

/-- An entry of the ghost log of the agent: a call of `_load_config` with the reason of
its fatal end if it had one, the taking of the locks, a scheduling pass with its
`sched_start` and the `backfill_interval` in force when it was admitted, the release of
the locks. -/
inductive AgentEvent where
  | load_config (fatal : Option Fatal)
  | lock
  | pass (sched_start : Int) (backfill_interval : Int)
  | unlock
deriving DecidableEq, Repr

/-- The state of the agent: the file-scope variables, the static local
`last_backfill_time`, the slurmctld global `last_job_update`, the host state and the
ghost log. -/
structure AgentState (σ : Type) where
  g : Globals
  last_backfill_time : Int
  last_job_update : Int
  host : σ
  log : List AgentEvent

/-- How an iteration of the agent loop, or the agent, ends: `running` when the loop goes
on (after `continue` or at the end of the body; for the agent, when the given schedule of
iterations is used up), `exited` after `break` or when the loop guard fails, `fatal` when
`fatal()` ended the process. -/
inductive Outcome (σ : Type) where
  | running (s : AgentState σ)
  | exited (s : AgentState σ)
  | fatal (f : Fatal) (s : AgentState σ)

/-- The agent state in which an iteration or the agent ended. -/
def Outcome.state {σ : Type} : Outcome σ → AgentState σ
  | Outcome.running s => s
  | Outcome.exited s => s
  | Outcome.fatal _ s => s

/-- The C library function `difftime` on whole seconds. -/
def difftime (time1 time0 : Int) : Int :=
  time1 - time0

/-- The function `_my_sleep` (builtin.c:96-105).  `during` are the calls that other
threads make until the agent has woken up. -/
def _my_sleep {σ : Type} (AH : AgentHost σ) (secs : Int) (during : List Request)
    (s : AgentState σ) : AgentState σ :=
  -- ts.tv_sec = time(NULL) + secs;
  let t := AH.sched.time s.host
  let ts := t.1 + secs
  if ¬ s.g.stop_builtin then
    { s with g := deliver s.g during, host := AH.pthread_cond_timedwait ts t.2 }
  else
    { s with g := deliver s.g during, host := t.2 }

/-- The statement `if (config_flag) { config_flag = false; _load_config(); }`
(builtin.c:223-226). -/
def reload_if_flagged {σ : Type} (AH : AgentHost σ) (s : AgentState σ) :
    Except Fatal (AgentState σ) :=
  if s.g.config_flag then
    match _load_config (AH.slurm_get_msg_timeout s.host) (AH.slurm_get_sched_params s.host)
        { s.g with config_flag := false } with
    | Except.ok g1 =>
      Except.ok { s with g := g1, log := s.log ++ [AgentEvent.load_config none] }
    | Except.error f => Except.error f
  else
    Except.ok s

/-- The statements of builtin.c:232-235: take the locks, run `_compute_start_times`, set
`last_backfill_time = time(NULL)`, release the locks. -/
def locked_pass {σ : Type} (AH : AgentHost σ) (s : AgentState σ) : AgentState σ :=
  let h1 := AH.lock_slurmctld s.host
  let p := _compute_start_times AH.sched s.g (AH.build_job_queue h1) s.last_job_update h1
  let t := AH.sched.time p.host
  { s with
    last_backfill_time := t.1, last_job_update := p.last_job_update,
    host := AH.unlock_slurmctld t.2,
    log := s.log ++ [AgentEvent.lock, AgentEvent.pass p.sched_start s.g.backfill_interval,
      AgentEvent.unlock] }

/-- The body of the agent loop (builtin.c:220-235).  `during_sleep` are the calls other
threads make until the agent has woken up, `during_work` those they make from then to
the end of the iteration. -/
def agent_iteration {σ : Type} (AH : AgentHost σ) (during_sleep during_work : List Request)
    (s : AgentState σ) : Outcome σ :=
  let s1 := _my_sleep AH s.g.backfill_interval during_sleep s
  if s1.g.stop_builtin then
    Outcome.exited s1
  else
    match reload_if_flagged AH s1 with
    | Except.error f =>
      Outcome.fatal f { s1 with
        g := { s1.g with config_flag := false },
        log := s1.log ++ [AgentEvent.load_config (some f)] }
    | Except.ok s2 =>
      -- now = time(NULL); wait_time = difftime(now, last_backfill_time);
      let t := AH.sched.time s2.host
      let s3 := { s2 with host := t.2 }
      if difftime t.1 s3.last_backfill_time < s3.g.backfill_interval then
        Outcome.running { s3 with g := deliver s3.g during_work }
      else
        let s4 := locked_pass AH s3
        Outcome.running { s4 with g := deliver s4.g during_work }

/-- The loop `while (!stop_builtin) { ... }` of builtin.c:219-236, run for at most as many
iterations as `schedule` has entries; each entry gives the calls other threads make
during that iteration. -/
def agent_loop {σ : Type} (AH : AgentHost σ) :
    List (List Request × List Request) → AgentState σ → Outcome σ
  | [], s => Outcome.running s
  | (during_sleep, during_work) :: schedule, s =>
    if s.g.stop_builtin then
      Outcome.exited s
    else
      match agent_iteration AH during_sleep during_work s with
      | Outcome.running s1 => agent_loop AH schedule s1
      | Outcome.exited s1 => Outcome.exited s1
      | Outcome.fatal f s1 => Outcome.fatal f s1

/-- The function `builtin_agent` (builtin.c:208-238), started with the file-scope
variables `g`: `_load_config()`, `last_backfill_time = time(NULL)`, then the loop. -/
def builtin_agent {σ : Type} (AH : AgentHost σ) (schedule : List (List Request × List Request))
    (g : Globals) (last_job_update : Int) (host : σ) : Outcome σ :=
  match _load_config (AH.slurm_get_msg_timeout host) (AH.slurm_get_sched_params host) g with
  | Except.error f =>
    Outcome.fatal f
      { g := g, last_backfill_time := 0, last_job_update := last_job_update,
        host := host, log := [AgentEvent.load_config (some f)] }
  | Except.ok g1 =>
    let t := AH.sched.time host
    agent_loop AH schedule
      { g := g1, last_backfill_time := t.1, last_job_update := last_job_update,
        host := t.2, log := [AgentEvent.load_config none] }

/-- The scheduling passes of a log, each with its `sched_start` and the
`backfill_interval` in force when it was admitted. -/
def passes : List AgentEvent → List (Int × Int)
  | [] => []
  | AgentEvent.pass t iv :: log => (t, iv) :: passes log
  | _ :: log => passes log

/-- The reading `time(NULL)` would give in host state `h`. -/
def clock {σ : Type} (H : Host σ) (h : σ) : Int :=
  (H.time h).1

/-- The clock of the host never goes back: no service of the host leaves a host state
whose clock reading is below the reading before the call. -/
def clock_non_decreasing {σ : Type} (AH : AgentHost σ) : Prop :=
  (∀ h, clock AH.sched h ≤ clock AH.sched (AH.sched.time h).2) ∧
  (∀ j w b h, clock AH.sched h ≤ clock AH.sched (AH.sched.job_test_resv j w b h).2) ∧
  (∀ j b x y z h, clock AH.sched h ≤ clock AH.sched (AH.sched.select_g_job_test j b x y z h).2) ∧
  (∀ ts h, clock AH.sched h ≤ clock AH.sched (AH.pthread_cond_timedwait ts h)) ∧
  (∀ h, clock AH.sched h ≤ clock AH.sched (AH.lock_slurmctld h)) ∧
  (∀ h, clock AH.sched h ≤ clock AH.sched (AH.unlock_slurmctld h))

/-- An agent host over `quick_host` whose state is the clock reading: the message timeout
is 10 seconds, the scheduling parameters are `interval=0` once the clock has reached 1000
and absent before, the job queue holds `demo_rec 0` and `demo_rec 1`, the wait ends at
the requested time, and the locks are free. -/
def demo_agent_host : AgentHost Int where
  sched := quick_host
  slurm_get_msg_timeout := fun _ => 10
  slurm_get_sched_params := fun c => if 1000 ≤ c then some "interval=0".toList else none
  build_job_queue := fun _ => [demo_rec 0, demo_rec 1]
  pthread_cond_timedwait := fun ts c => if c < ts then ts else c
  lock_slurmctld := fun c => c
  unlock_slurmctld := fun c => c

/-- The state of an agent that loaded the default configuration at time 100. -/
def demo_agent_state : AgentState Int :=
  { g := { Globals.init with sched_timeout := 5 }, last_backfill_time := 100,
    last_job_update := 0, host := 100, log := [AgentEvent.load_config none] }

end SchedBuiltin

/-!
# Host list conversion of the wiki2 plugin (src/plugins/sched/wiki2/hostlist.c)

C strings are lists of characters; a `char *` that may be NULL is an `Option`.
The host list library (`hostlist_create`, `hostlist_shift`) is not part of this tree:
a host list is the list of names that `hostlist_shift` hands out, in order, and
`hostlist_create` is a parameter of the two converters.
-/

namespace Wiki2

/-- A host list (`hostlist_t`): the host names that successive calls of `hostlist_shift`
return, in order. -/
abbrev hostlist_t := List (List Char)

/-- The fields of `struct job_record` that `slurm_job2moab_task_list` reads: the node list
expression `nodes`, the number `alloc_lps_cnt` of entries of the array `alloc_lps`, and
the array itself (cpus allocated on each node). -/
structure job_record where
  job_id : Nat
  nodes : List Char
  alloc_lps_cnt : Nat
  alloc_lps : List Nat
deriving DecidableEq, Repr

/-- The C library function `strchr`: the suffix of `s` that starts at the first `c`. -/
def strchr : List Char → Char → Option (List Char)
  | [], _ => none
  | x :: xs, c => if x = c then some (x :: xs) else strchr xs c

/-- The tokens that `strtok_r(tmp1, delim, &tok_p)` and the calls `strtok_r(NULL, delim,
&tok_p)` after it return, in order: the maximal runs of characters other than `delim`.
`cur` holds the characters of the token being read. -/
def strtok_tokens (delim : Char) : List Char → List Char → List (List Char)
  | [], cur => if cur = [] then [] else [cur]
  | c :: cs, cur =>
    if c = delim then
      if cur = [] then strtok_tokens delim cs [] else cur :: strtok_tokens delim cs []
    else strtok_tokens delim cs (cur ++ [c])

/-- The loop of hostlist.c:92-97 over the characters of the copy: every `:` becomes `,`
and advances `*task_cnt`. -/
def format1_loop : List Char → Int → List Char × Int
  | [], task_cnt => ([], task_cnt)
  | c :: cs, task_cnt =>
    if c = ':' then
      let r := format1_loop cs (task_cnt + 1)
      (',' :: r.1, r.2)
    else
      let r := format1_loop cs task_cnt
      (c :: r.1, r.2)

/-- The loop `for (i=0; i<reps; i++)` of hostlist.c:117-123 with `n` iterations to go. -/
def reps_loop (cr_enabled : Nat) (host : List Char) : Nat → List Char → List Char
  | 0, slurm_tasklist => slurm_tasklist
  | n + 1, slurm_tasklist =>
    let t1 := if slurm_tasklist ≠ [] then slurm_tasklist ++ [','] else slurm_tasklist
    let t2 := t1 ++ host
    if cr_enabled = 0 then t2 else reps_loop cr_enabled host n t2

/-- The loop `while ((host = hostlist_shift(hl)))` of hostlist.c:116-126 on the string
built so far and `*task_cnt`. -/
def shift_loop (cr_enabled : Nat) (reps : Int) : hostlist_t → List Char × Int → List Char × Int
  | [], st => st
  | host :: hl, st =>
    shift_loop cr_enabled reps hl (reps_loop cr_enabled host reps.toNat st.1, st.2 + reps)

/-- The host expression and the task count of a token (hostlist.c:106-112): the text
before the first `*` and `atoi` of the text after it, or the whole token and 1. -/
def split_token (tok : List Char) : List Char × Int :=
  match strchr tok '*' with
  | some tmp2 => (tok.take (tok.length - tmp2.length), SchedBuiltin.atoi (tmp2.drop 1))
  | none => (tok, 1)

/-- The loop `while (tok)` of hostlist.c:105-131 over the tokens.  A NULL result of
`hostlist_create` is taken to yield no host. -/
def token_loop (hostlist_create : List Char → Option hostlist_t) (cr_enabled : Nat) :
    List (List Char) → List Char × Int → List Char × Int
  | [], st => st
  | tok :: toks, st =>
    match hostlist_create (split_token tok).1 with
    | some hl =>
      token_loop hostlist_create cr_enabled toks (shift_loop cr_enabled (split_token tok).2 hl st)
    | none => token_loop hostlist_create cr_enabled toks st

/-- The function `moab2slurm_task_list` (hostlist.c:72-134).  `cr_enabled` is the value
that `select_g_get_info_from_plugin(SELECT_CR_PLUGIN, &cr_enabled)` stored on the first
call.  The result is the returned string together with `*task_cnt`. -/
def moab2slurm_task_list (hostlist_create : List Char → Option hostlist_t) (cr_enabled : Nat)
    (moab_tasklist : List Char) : List Char × Int :=
  match strchr moab_tasklist '*' with
  | none =>
    -- Moab format 1
    format1_loop moab_tasklist (if moab_tasklist ≠ [] then 1 else 0)
  | some _ =>
    -- Moab format 2
    token_loop hostlist_create cr_enabled (strtok_tokens ':' moab_tasklist []) ([], 0)

/-- The macro `xstrcat(buf, s)` of src/common/xstring.h on a string that may be NULL: the
string is allocated when it is NULL, then `s` is appended. -/
def xstrcat (buf : Option (List Char)) (s : List Char) : Option (List Char) :=
  some (buf.getD [] ++ s)

/-- The loop `for (j=0; j<job_ptr->alloc_lps[i]; j++)` of hostlist.c:194-198 with `n`
iterations to go. -/
def cpu_loop (host : List Char) : Nat → Option (List Char) → Option (List Char)
  | 0, buf => buf
  | n + 1, buf =>
    cpu_loop host n (xstrcat (if buf.isSome then xstrcat buf [':'] else buf) host)

/-- The loop `for (i=0; i<job_ptr->alloc_lps_cnt; i++)` of hostlist.c:186-200 with `n`
iterations to go; it ends early when `hostlist_shift` returns NULL.  An entry of
`alloc_lps` beyond the end of the list reads as 0. -/
def node_loop (job_ptr : job_record) : Nat → Nat → hostlist_t → Option (List Char) →
    Option (List Char)
  | 0, _, _, buf => buf
  | _ + 1, _, [], buf => buf
  | n + 1, i, host :: hl, buf =>
    node_loop job_ptr n (i + 1) hl (cpu_loop host (job_ptr.alloc_lps.getD i 0) buf)

/-- The function `slurm_job2moab_task_list` (hostlist.c:170-202, the branch compiled with
`MOAB_FORMAT1`): NULL when `hostlist_create` fails, else the string built by the loop. -/
def slurm_job2moab_task_list (hostlist_create : List Char → Option hostlist_t)
    (job_ptr : job_record) : Option (List Char) :=
  match hostlist_create job_ptr.nodes with
  | none => none
  | some hl => node_loop job_ptr job_ptr.alloc_lps_cnt 0 hl none

/-! ## Reference lists used to state the properties -/

/-- The task names of a list of hosts with a count each: every host as often as its count
says, in the order of the hosts; hosts without a count and counts without a host are
left out. -/
def task_names (hosts : hostlist_t) (counts : List Nat) : List (List Char) :=
  (hosts.zip counts).flatMap (fun p => List.replicate p.2 p.1)

/-- The task names a Moab format 2 token stands for: every host of the expansion of its
host expression as often as its task count says. -/
def token_names (hostlist_create : List Char → Option hostlist_t) (tok : List Char) :
    List (List Char) :=
  ((hostlist_create (split_token tok).1).getD []).flatMap
    (fun host => List.replicate (split_token tok).2.toNat host)

/-- The string a list of task names is reported as: NULL when there is no name, else the
names separated by `:`. -/
def join_or_null (names : List (List Char)) : Option (List Char) :=
  if names = [] then none else some (List.intercalate [':'] names)

/-- A token of a Moab format 2 task list as it is written: the host expression followed,
when the token carries a task count, by `*` and the count in decimal. -/
def render_token (t : List Char × Option Nat) : List Char :=
  match t.2 with
  | some reps => t.1 ++ '*' :: Nat.toDigits 10 reps
  | none => t.1

/-- The task count of a written token: the count it carries, or 1 when it carries none. -/
def token_reps (t : List Char × Option Nat) : Nat :=
  match t.2 with
  | some reps => reps
  | none => 1

/-- The task names that a list of written tokens stands for: token by token, and host by
host in the order of the expansion of the host expression, every host as often as the
task count of its token says. -/
def format2_names (hostlist_create : List Char → Option hostlist_t)
    (toks : List (List Char × Option Nat)) : List (List Char) :=
  toks.flatMap (fun t =>
    ((hostlist_create t.1).getD []).flatMap (fun host => List.replicate (token_reps t) host))

/-- A stand-in for `hostlist_create` on the expressions used in the examples: `tux[0-1]`
and `tux[0-2]` expand to their ranges, the empty expression to no host, and anything
else to itself. -/
def demo_hostlist_create (expr : List Char) : Option hostlist_t :=
  if expr = "tux[0-1]".toList then some ["tux0".toList, "tux1".toList]
  else if expr = "tux[0-2]".toList then some ["tux0".toList, "tux1".toList, "tux2".toList]
  else if expr = [] then some []
  else some [expr]

/-- A job on the nodes `tux[0-2]` with 2, 2 and 1 cpus allocated. -/
def demo_job : job_record :=
  { job_id := 1, nodes := "tux[0-2]".toList, alloc_lps_cnt := 3, alloc_lps := [2, 2, 1] }

end Wiki2

namespace SchedBuiltin

/-! ## General lemmas about the loop -/

/-- On node counts the macro `MAX` is the larger of its arguments. -/
theorem MAX_eq_max (a b : Nat) : MAX a b = max a b := by
  unfold MAX
  split_ifs <;> omega

/-- On node counts the macro `MIN` is the smaller of its arguments. -/
theorem MIN_eq_min (a b : Nat) : MIN a b = min a b := by
  unfold MIN
  split_ifs <;> omega

theorem while_loop_nil {σ : Type} (H : Host σ) (g : Globals) (i : Nat) (s : PassState σ) :
    while_loop H g i [] s = s := by
  simp [while_loop]

theorem while_loop_cons {σ : Type} (H : Host σ) (g : Globals) (i : Nat)
    (r : job_queue_rec_t) (q : List job_queue_rec_t) (s : PassState σ) :
    while_loop H g i (r :: q) s =
      if (loop_body H g i r s).1 = Flow.next then while_loop H g (i + 1) q (loop_body H g i r s).2
      else (loop_body H g i r s).2 := by
  rw [while_loop]
  rcases hb : loop_body H g i r s with ⟨f, s1⟩
  cases f <;> simp

theorem while_loop_single {σ : Type} (H : Host σ) (g : Globals) (i : Nat)
    (r : job_queue_rec_t) (s : PassState σ) :
    while_loop H g i [r] s = (loop_body H g i r s).2 := by
  rw [while_loop_cons, while_loop_nil]
  split <;> rfl

/-- A property of the pass state that every loop iteration preserves holds when the loop ends. -/
theorem while_loop_invariant {σ : Type} (H : Host σ) (g : Globals) (Inv : PassState σ → Prop)
    (hstep : ∀ i r s, Inv s → Inv (loop_body H g i r s).2) :
    ∀ (q : List job_queue_rec_t) (i : Nat) (s : PassState σ), Inv s → Inv (while_loop H g i q s) := by
  intro q
  induction q with
  | nil => intro i s hs; simpa [while_loop_nil] using hs
  | cons r q ih =>
    intro i s hs
    rw [while_loop_cons]
    split
    · exact ih (i + 1) _ (hstep i r s hs)
    · exact hstep i r s hs

/-- Every event that an iteration adds to the trace is `emitted` for its record. -/
theorem loop_body_trace {σ : Type} (H : Host σ) (g : Globals) (i : Nat) (r : job_queue_rec_t)
    (s : PassState σ) :
    ∀ e ∈ (loop_body H g i r s).2.trace, e ∈ s.trace ∨ emitted H i r e := by
  intro e he
  unfold loop_body at he
  simp only [] at he
  split_ifs at he with h1 h2 h3 h4 h5
  all_goals simp only [List.mem_append, List.mem_cons, List.mem_singleton, List.not_mem_nil,
    or_false, List.append_assoc] at he
  all_goals first
    | exact Or.inl he
    | skip
  all_goals
    have hpart : r.part_ptr = r.job_ptr.part_ptr := by simpa using h1
    have hwin : min_nodes r.job_ptr (H.part r.part_ptr) ≤ max_nodes r.job_ptr (H.part r.part_ptr) :=
      Nat.le_of_not_lt h3
    rcases he with he | he
    · exact Or.inl he
    · right
      rcases he with rfl | rfl | rfl <;>
        refine ⟨rfl, rfl, hpart, hwin, ?_⟩ <;> intro a b c rc hc <;> simp at hc <;>
        exact ⟨hc.1.symm, hc.2.1.symm, hc.2.2.1.symm⟩

/-- Every event in the trace after the loop was there before or was emitted for the record
at its position. -/
theorem while_loop_trace {σ : Type} (H : Host σ) (g : Globals) :
    ∀ (q : List job_queue_rec_t) (i : Nat) (s : PassState σ),
      ∀ e ∈ (while_loop H g i q s).trace,
        e ∈ s.trace ∨ ∃ k r, q[k]? = some r ∧ emitted H (i + k) r e := by
  intro q
  induction q with
  | nil => intro i s e he; left; simpa [while_loop_nil] using he
  | cons r q ih =>
    intro i s e he
    rw [while_loop_cons] at he
    have hb := loop_body_trace H g i r s
    split at he
    · rcases ih (i + 1) _ e he with h | ⟨k, r1, hk, hem⟩
      · rcases hb e h with h | h
        · exact Or.inl h
        · exact Or.inr ⟨0, r, by simp, by simpa using h⟩
      · refine Or.inr ⟨k + 1, r1, by simpa using hk, ?_⟩
        have : i + (k + 1) = i + 1 + k := by omega
        rw [this]; exact hem
    · rcases hb e he with h | h
      · exact Or.inl h
      · exact Or.inr ⟨0, r, by simp, by simpa using h⟩

/-- Every event in the trace of a pass was emitted for the queue record at its position. -/
theorem pass_trace {σ : Type} (H : Host σ) (g : Globals) (q : List job_queue_rec_t)
    (l : Int) (h : σ) :
    ∀ e ∈ (_compute_start_times H g q l h).trace, ∃ r, q[e.idx]? = some r ∧ emitted H e.idx r e := by
  intro e he
  unfold _compute_start_times at he
  rcases while_loop_trace H g q 0 _ e he with h0 | ⟨k, r, hk, hem⟩
  · simp [pass_init] at h0
  · have hidx : e.idx = k := by simpa using hem.1
    refine ⟨r, by rw [hidx]; exact hk, ?_⟩
    rw [hidx]; simpa using hem

/-! ## What one iteration does, case by case -/

theorem loop_body_non_default {σ : Type} (H : Host σ) (g : Globals) (i : Nat)
    (r : job_queue_rec_t) (s : PassState σ) (hp : r.part_ptr ≠ r.job_ptr.part_ptr) :
    loop_body H g i r s = (Flow.next, s) := by
  unfold loop_body
  simp only []
  split_ifs
  rfl

theorem loop_body_over_count {σ : Type} (H : Host σ) (g : Globals) (i : Nat)
    (r : job_queue_rec_t) (s : PassState σ) (hp : r.part_ptr = r.job_ptr.part_ptr)
    (hc : s.job_cnt > g.max_backfill_job_cnt) :
    loop_body H g i r s = (Flow.stop, { s with job_cnt := s.job_cnt + 1 }) := by
  unfold loop_body
  simp only []
  split_ifs <;> first | rfl | contradiction

theorem loop_body_empty_window {σ : Type} (H : Host σ) (g : Globals) (i : Nat)
    (r : job_queue_rec_t) (s : PassState σ) (hp : r.part_ptr = r.job_ptr.part_ptr)
    (hc : ¬ s.job_cnt > g.max_backfill_job_cnt)
    (hw : min_nodes r.job_ptr (H.part r.part_ptr) > max_nodes r.job_ptr (H.part r.part_ptr)) :
    loop_body H g i r s = (Flow.next, { s with job_cnt := s.job_cnt + 1 }) := by
  unfold loop_body
  simp only []
  split_ifs <;> first | rfl | contradiction

theorem loop_body_resv_failed {σ : Type} (H : Host σ) (g : Globals) (i : Nat)
    (r : job_queue_rec_t) (s : PassState σ) (hr : reaches_resv H g r s)
    (hf : (resv_call H r s).1.1 ≠ SLURM_SUCCESS) :
    loop_body H g i r s = (Flow.next,
      { s with
        job_cnt := s.job_cnt + 1, now := (resv_call H r s).1.2.1,
        avail_bitmap := (resv_call H r s).1.2.2, host := (resv_call H r s).2,
        trace := s.trace ++ [Event.mk i r
          (Call.job_test_resv s.now (resv_call H r s).1.1 (resv_call H r s).1.2.1)] }) := by
  obtain ⟨h1, h2, h3⟩ := hr
  unfold resv_call at hf ⊢
  unfold loop_body
  simp only []
  split_ifs <;> first | rfl | contradiction

theorem loop_body_placed {σ : Type} (H : Host σ) (g : Globals) (i : Nat)
    (r : job_queue_rec_t) (s : PassState σ) (hsel : reaches_select H g r s) :
    loop_body H g i r s =
      (if time_check H r s - s.sched_start ≥ g.sched_timeout then Flow.stop else Flow.next,
       { s with
         job_cnt := s.job_cnt + 1, now := (resv_call H r s).1.2.1,
         avail_bitmap := none, last_job_update := (resv_call H r s).1.2.1,
         host := (H.time (select_call H r s).2).2,
         trace := s.trace ++
           [Event.mk i r (Call.job_test_resv s.now (resv_call H r s).1.1 (resv_call H r s).1.2.1),
            Event.mk i r (Call.select_g_job_test (min_nodes r.job_ptr (H.part r.part_ptr))
              (max_nodes r.job_ptr (H.part r.part_ptr)) (req_nodes r.job_ptr (H.part r.part_ptr))
              (select_call H r s).1),
            Event.mk i r (Call.last_job_update (resv_call H r s).1.2.1)] }) := by
  obtain ⟨⟨h1, h2, h3⟩, h4⟩ := hsel
  unfold time_check select_call resv_call at *
  unfold loop_body
  simp only []
  split_ifs <;> first | contradiction | simp

/-! ## The job-count budget -/

/-- C1 (the code departs from the claim): with `max_backfill_job_cnt = 2` and a queue of five
records that are all on their default partition, have a feasible node window and pass both
oracles at once, the pass evaluates the records at positions 0, 1 and 2, which is three
records and not at most two, because `job_cnt++ > max_backfill_job_cnt` compares the
counter before it is advanced. -/
theorem C1_job_count_budget_overrun :
    two_job_globals.max_backfill_job_cnt = 2 ∧
    evaluated (_compute_start_times quick_host two_job_globals
      [demo_rec 0, demo_rec 1, demo_rec 2, demo_rec 3, demo_rec 4] 0 100).trace = [0, 1, 2] ∧
    (_compute_start_times quick_host two_job_globals
      [demo_rec 0, demo_rec 1, demo_rec 2, demo_rec 3, demo_rec 4] 0 100).host - 100 <
        two_job_globals.sched_timeout := by
  decide

/-- Events that all carry the same position add at most one position to `evaluated`. -/
theorem evaluated_append_le (tr new : List Event) (i : Nat) (hall : ∀ e ∈ new, e.idx = i) :
    (evaluated (tr ++ new)).length ≤ (evaluated tr).length + 1 := by
  unfold evaluated
  rw [← List.card_toFinset, ← List.card_toFinset, List.map_append, List.toFinset_append]
  have hsub : (new.map Event.idx).toFinset ⊆ {i} := by
    intro x hx
    simp only [List.mem_toFinset, List.mem_map] at hx
    obtain ⟨e, he, rfl⟩ := hx
    simp [hall e he]
  calc ((tr.map Event.idx).toFinset ∪ (new.map Event.idx).toFinset).card
      ≤ (tr.map Event.idx).toFinset.card + (new.map Event.idx).toFinset.card :=
        Finset.card_union_le _ _
    _ ≤ (tr.map Event.idx).toFinset.card + 1 := by
        have := Finset.card_le_card hsub
        simp only [Finset.card_singleton] at this
        omega

/-- What the job-count test of builtin.c:155 does guarantee: a pass evaluates at most
`max_backfill_job_cnt + 1` queue records. -/
theorem pass_evaluated_le {σ : Type} (H : Host σ) (g : Globals) (q : List job_queue_rec_t)
    (l : Int) (h : σ) (hmax : 0 ≤ g.max_backfill_job_cnt) :
    ((evaluated (_compute_start_times H g q l h).trace).length : Int)
      ≤ g.max_backfill_job_cnt + 1 := by
  have hinv := while_loop_invariant H g
    (fun s => ((evaluated s.trace).length : Int) ≤ s.job_cnt ∧
      ((evaluated s.trace).length : Int) ≤ g.max_backfill_job_cnt + 1)
    (by
      intro i r s ⟨h1, h2⟩
      by_cases hp : r.part_ptr = r.job_ptr.part_ptr
      · by_cases hc : s.job_cnt > g.max_backfill_job_cnt
        · rw [loop_body_over_count H g i r s hp hc]
          exact ⟨by simp only []; omega, h2⟩
        · by_cases hwin : min_nodes r.job_ptr (H.part r.part_ptr) >
              max_nodes r.job_ptr (H.part r.part_ptr)
          · rw [loop_body_empty_window H g i r s hp hc hwin]
            exact ⟨by simp only []; omega, h2⟩
          · by_cases hf : (resv_call H r s).1.1 = SLURM_SUCCESS
            · rw [loop_body_placed H g i r s ⟨⟨hp, hc, hwin⟩, hf⟩]
              have hle := evaluated_append_le s.trace
                [Event.mk i r (Call.job_test_resv s.now (resv_call H r s).1.1
                    (resv_call H r s).1.2.1),
                 Event.mk i r (Call.select_g_job_test (min_nodes r.job_ptr (H.part r.part_ptr))
                    (max_nodes r.job_ptr (H.part r.part_ptr))
                    (req_nodes r.job_ptr (H.part r.part_ptr)) (select_call H r s).1),
                 Event.mk i r (Call.last_job_update (resv_call H r s).1.2.1)] i
                (by intro e he; simp at he; rcases he with rfl | rfl | rfl <;> rfl)
              simp only []
              constructor <;> omega
            · rw [loop_body_resv_failed H g i r s ⟨hp, hc, hwin⟩ hf]
              have hle := evaluated_append_le s.trace
                [Event.mk i r (Call.job_test_resv s.now (resv_call H r s).1.1
                    (resv_call H r s).1.2.1)] i
                (by intro e he; simp at he; rw [he])
              simp only []
              constructor <;> omega
      · rw [loop_body_non_default H g i r s hp]; exact ⟨h1, h2⟩)
    q 0 (pass_init H l h) (by simp [pass_init, evaluated]; omega)
  exact hinv.2

/-! ## The time budget -/

/-- C2 as stated fails: with `sched_timeout = 1`, the first of four records spends 5 seconds
in `job_test_resv`, which fails; when that record is done the clock is 5 seconds past the
start of the pass, and still the record at position 1 is evaluated: both oracles are
called for it and the timestamp is written. -/
theorem C2_counterexample :
    (slow_resv_host.time (_compute_start_times slow_resv_host one_second_globals
        [demo_rec 0] 0 100).host).1
      - (_compute_start_times slow_resv_host one_second_globals [demo_rec 0] 0 100).sched_start
      ≥ one_second_globals.sched_timeout ∧
    evaluated (_compute_start_times slow_resv_host one_second_globals
      [demo_rec 0, demo_rec 1, demo_rec 2, demo_rec 3] 0 100).trace = [0, 1] := by
  decide

/-- C2 (amended): when the iteration for a record gets as far as the placement oracle and the
clock read after that call is `sched_timeout` or more past `sched_start`, the loop ends with
that record, whatever the placement oracle answered and whichever oracle used the time: the
final state is the one reached with no record behind it, and the trace grows by the three
events of this record only. -/
theorem C2_time_budget_after_placement {σ : Type} (H : Host σ) (g : Globals) (i : Nat)
    (r : job_queue_rec_t) (rest : List job_queue_rec_t) (s : PassState σ)
    (hsel : reaches_select H g r s)
    (ht : time_check H r s - s.sched_start ≥ g.sched_timeout) :
    while_loop H g i (r :: rest) s = while_loop H g i [r] s ∧
    (while_loop H g i (r :: rest) s).trace = s.trace ++
      [Event.mk i r (Call.job_test_resv s.now (resv_call H r s).1.1 (resv_call H r s).1.2.1),
       Event.mk i r (Call.select_g_job_test (min_nodes r.job_ptr (H.part r.part_ptr))
         (max_nodes r.job_ptr (H.part r.part_ptr)) (req_nodes r.job_ptr (H.part r.part_ptr))
         (select_call H r s).1),
       Event.mk i r (Call.last_job_update (resv_call H r s).1.2.1)] := by
  have hb := loop_body_placed H g i r s hsel
  rw [if_pos ht] at hb
  refine ⟨?_, ?_⟩
  · rw [while_loop_single, while_loop_cons, hb]; simp
  · rw [while_loop_cons, hb]; simp

/-- C2 (amended), applied: with `sched_timeout = 1` the placement oracle spends 5 seconds on
the first of four records and answers that the job cannot be placed; the pass ends there. -/
theorem C2_time_budget_after_placement_witness :
    reaches_select slow_select_host one_second_globals (demo_rec 0)
      (pass_init slow_select_host 0 100) ∧
    evaluated (while_loop slow_select_host one_second_globals 0
      [demo_rec 0, demo_rec 1, demo_rec 2, demo_rec 3] (pass_init slow_select_host 0 100)).trace
      = [0] := by
  have hsel : reaches_select slow_select_host one_second_globals (demo_rec 0)
      (pass_init slow_select_host 0 100) := by
    unfold reaches_select reaches_resv; decide
  refine ⟨hsel, ?_⟩
  rw [(C2_time_budget_after_placement slow_select_host one_second_globals 0 (demo_rec 0)
    [demo_rec 1, demo_rec 2, demo_rec 3] (pass_init slow_select_host 0 100) hsel (by decide)).2]
  decide

/-! ## Skipped records -/

/-- C3: a queue record whose partition is not the default partition of its job is skipped.
No event of the pass carries its position (neither oracle is called for it and the
timestamp is not written for it), and its iteration leaves the whole pass state as it
was and goes on to the next record. -/
theorem C3_non_default_partition_skipped {σ : Type} (H : Host σ) (g : Globals)
    (q : List job_queue_rec_t) (l : Int) (h : σ) (i : Nat) (r : job_queue_rec_t)
    (hq : q[i]? = some r) (hp : r.part_ptr ≠ r.job_ptr.part_ptr) :
    (∀ e ∈ (_compute_start_times H g q l h).trace, e.idx ≠ i) ∧
    (∀ s : PassState σ, loop_body H g i r s = (Flow.next, s)) := by
  refine ⟨?_, fun s => loop_body_non_default H g i r s hp⟩
  intro e he hidx
  obtain ⟨r1, hr1, hem⟩ := pass_trace H g q l h e he
  rw [hidx, hq] at hr1
  cases hr1
  exact hp hem.2.2.1

/-- C3, applied: in a queue of three records whose middle one is under partition 8 while
its job's default partition is 7, only positions 0 and 2 are evaluated. -/
theorem C3_non_default_partition_skipped_witness :
    [demo_rec 0, other_part_rec 1, demo_rec 2][1]? = some (other_part_rec 1) ∧
    (other_part_rec 1).part_ptr ≠ (other_part_rec 1).job_ptr.part_ptr ∧
    (∀ e ∈ (_compute_start_times quick_host two_job_globals
        [demo_rec 0, other_part_rec 1, demo_rec 2] 0 100).trace, e.idx ≠ 1) ∧
    (∀ s : PassState Int,
      loop_body quick_host two_job_globals 1 (other_part_rec 1) s = (Flow.next, s)) :=
  ⟨by decide, by decide,
   C3_non_default_partition_skipped quick_host two_job_globals
     [demo_rec 0, other_part_rec 1, demo_rec 2] 0 100 1 (other_part_rec 1) (by decide) (by decide)⟩

/-- C4: a queue record whose clamped minimum node count exceeds its clamped maximum is
skipped without any oracle call.  No event of the pass carries its position, and its
iteration leaves the trace, `last_job_update`, `now` and the host state as they were. -/
theorem C4_empty_node_window_skipped {σ : Type} (H : Host σ) (g : Globals)
    (q : List job_queue_rec_t) (l : Int) (h : σ) (i : Nat) (r : job_queue_rec_t)
    (hq : q[i]? = some r)
    (hw : min_nodes r.job_ptr (H.part r.part_ptr) > max_nodes r.job_ptr (H.part r.part_ptr)) :
    (∀ e ∈ (_compute_start_times H g q l h).trace, e.idx ≠ i) ∧
    (∀ s : PassState σ,
      (loop_body H g i r s).2.trace = s.trace ∧
      (loop_body H g i r s).2.last_job_update = s.last_job_update ∧
      (loop_body H g i r s).2.now = s.now ∧
      (loop_body H g i r s).2.host = s.host) := by
  constructor
  · intro e he hidx
    obtain ⟨r1, hr1, hem⟩ := pass_trace H g q l h e he
    rw [hidx, hq] at hr1
    cases hr1
    exact absurd hw (Nat.not_lt.mpr hem.2.2.2.1)
  · intro s
    by_cases hp : r.part_ptr = r.job_ptr.part_ptr
    · by_cases hc : s.job_cnt > g.max_backfill_job_cnt
      · rw [loop_body_over_count H g i r s hp hc]; simp
      · rw [loop_body_empty_window H g i r s hp hc hw]; simp
    · rw [loop_body_non_default H g i r s hp]; simp

/-- C4, applied: a job with `min_nodes = 10` and no explicit maximum in a partition with
`max_nodes = 4` causes no oracle call and no timestamp update. -/
theorem C4_empty_node_window_skipped_witness :
    (wide_rec 0).job_ptr.details.min_nodes = 10 ∧
    (wide_rec 0).job_ptr.details.max_nodes = 0 ∧
    (quick_host.part (wide_rec 0).part_ptr).max_nodes = 4 ∧
    (_compute_start_times quick_host two_job_globals [wide_rec 0] 0 100).trace = [] ∧
    (_compute_start_times quick_host two_job_globals [wide_rec 0] 7 100).last_job_update = 7 ∧
    (∀ e ∈ (_compute_start_times quick_host two_job_globals
        [wide_rec 0, demo_rec 1] 0 100).trace, e.idx ≠ 0) :=
  ⟨by decide, by decide, by decide, by decide, by decide,
   (C4_empty_node_window_skipped quick_host two_job_globals [wide_rec 0, demo_rec 1] 0 100 0
     (wide_rec 0) (by decide) (by decide)).1⟩

/-! ## The heartbeat -/

/-- C5 as stated fails: when `job_test_resv` succeeds and moves its time argument 100
seconds ahead, the placement oracle is called for the record and afterwards
`last_job_update` is 200 while the pass started at 100. -/
theorem C5_counterexample :
    (_compute_start_times shifting_resv_host two_job_globals [demo_rec 0] 0 100).sched_start
      = 100 ∧
    Event.mk 0 (demo_rec 0) (Call.select_g_job_test 1 4 1 SLURM_SUCCESS) ∈
      (_compute_start_times shifting_resv_host two_job_globals [demo_rec 0] 0 100).trace ∧
    (_compute_start_times shifting_resv_host two_job_globals [demo_rec 0] 0 100).last_job_update
      = 200 := by
  decide

/-- C5 (amended): for every record for which the placement oracle is called, the iteration
leaves in `last_job_update` the value that `job_test_resv` left in `now` for that record,
whatever the placement oracle answers.  When `job_test_resv` never changes its time
argument, that value is the start time of the pass: in the trace of a whole pass every
write to `last_job_update` writes `sched_start`, every placement call is accompanied by
such a write for the same record, and if any placement call was made the final
`last_job_update` is `sched_start`, the clock reading taken when the pass began. -/
theorem C5_heartbeat {σ : Type} (H : Host σ) (g : Globals) :
    (∀ (i : Nat) (r : job_queue_rec_t) (s : PassState σ), reaches_select H g r s →
      (loop_body H g i r s).2.last_job_update = (resv_call H r s).1.2.1) ∧
    ((∀ j w b h, (H.job_test_resv j w b h).1.2.1 = w) →
      ∀ (q : List job_queue_rec_t) (l : Int) (h : σ),
        (_compute_start_times H g q l h).sched_start = (H.time h).1 ∧
        ∀ e ∈ (_compute_start_times H g q l h).trace,
          (∀ v, e.call = Call.last_job_update v → v = (H.time h).1) ∧
          (∀ a b c rc, e.call = Call.select_g_job_test a b c rc →
            (_compute_start_times H g q l h).last_job_update = (H.time h).1 ∧
            Event.mk e.idx e.entry (Call.last_job_update (H.time h).1) ∈
              (_compute_start_times H g q l h).trace)) := by
  constructor
  · intro i r s hsel
    rw [loop_body_placed H g i r s hsel]
  · intro hkeep q l h
    have hinv := while_loop_invariant H g
      (fun s => s.now = (H.time h).1 ∧ s.sched_start = (H.time h).1 ∧
        ∀ e ∈ s.trace,
          (∀ v, e.call = Call.last_job_update v → v = (H.time h).1) ∧
          (∀ a b c rc, e.call = Call.select_g_job_test a b c rc →
            s.last_job_update = (H.time h).1 ∧
            Event.mk e.idx e.entry (Call.last_job_update (H.time h).1) ∈ s.trace))
      (by
        intro i r s ⟨hnow, hstart, htr⟩
        have hw : (resv_call H r s).1.2.1 = (H.time h).1 := by
          unfold resv_call; rw [hkeep, hnow]
        by_cases hp : r.part_ptr = r.job_ptr.part_ptr
        · by_cases hc : s.job_cnt > g.max_backfill_job_cnt
          · rw [loop_body_over_count H g i r s hp hc]; exact ⟨hnow, hstart, htr⟩
          · by_cases hwin : min_nodes r.job_ptr (H.part r.part_ptr) >
                max_nodes r.job_ptr (H.part r.part_ptr)
            · rw [loop_body_empty_window H g i r s hp hc hwin]; exact ⟨hnow, hstart, htr⟩
            · by_cases hf : (resv_call H r s).1.1 = SLURM_SUCCESS
              · rw [loop_body_placed H g i r s ⟨⟨hp, hc, hwin⟩, hf⟩]
                refine ⟨hw, hstart, ?_⟩
                intro e he
                simp only [List.mem_append, List.mem_cons, List.mem_singleton,
                  List.not_mem_nil, or_false] at he
                rcases he with he | rfl | rfl | rfl
                · refine ⟨(htr e he).1, fun a b c rc hc1 => ⟨hw, ?_⟩⟩
                  simp only [List.mem_append]
                  exact Or.inl ((htr e he).2 a b c rc hc1).2
                · simp
                · simp [hw]
                · simp [hw]
              · rw [loop_body_resv_failed H g i r s ⟨hp, hc, hwin⟩ hf]
                refine ⟨hw, hstart, ?_⟩
                intro e he
                simp only [List.mem_append, List.mem_singleton] at he
                rcases he with he | rfl
                · refine ⟨(htr e he).1, fun a b c rc hc1 => ⟨((htr e he).2 a b c rc hc1).1, ?_⟩⟩
                  simp only [List.mem_append]
                  exact Or.inl ((htr e he).2 a b c rc hc1).2
                · simp
        · rw [loop_body_non_default H g i r s hp]; exact ⟨hnow, hstart, htr⟩)
      q 0 (pass_init H l h) (by simp [pass_init])
    exact ⟨hinv.2.1, hinv.2.2⟩

/-- C5 (amended), applied: three records on their default partition, all oracle calls
succeed and `job_test_resv` leaves its time argument alone; after the pass the timestamp
is the start time of the pass. -/
theorem C5_heartbeat_witness :
    (∀ j w b h, (quick_host.job_test_resv j w b h).1.2.1 = w) ∧
    reaches_select quick_host two_job_globals (demo_rec 0) (pass_init quick_host 0 100) ∧
    (loop_body quick_host two_job_globals 0 (demo_rec 0) (pass_init quick_host 0 100)).2.last_job_update
      = 100 ∧
    (_compute_start_times quick_host two_job_globals
      [demo_rec 0, demo_rec 1, demo_rec 2] 0 100).last_job_update = 100 := by
  have hkeep : ∀ j w b h, (quick_host.job_test_resv j w b h).1.2.1 = w := fun _ _ _ _ => rfl
  have hsel : reaches_select quick_host two_job_globals (demo_rec 0)
      (pass_init quick_host 0 100) := by
    unfold reaches_select reaches_resv; decide
  have hev : Event.mk 0 (demo_rec 0) (Call.select_g_job_test 1 4 1 SLURM_SUCCESS) ∈
      (_compute_start_times quick_host two_job_globals
        [demo_rec 0, demo_rec 1, demo_rec 2] 0 100).trace := by decide
  refine ⟨hkeep, hsel, ?_, ?_⟩
  · exact (C5_heartbeat quick_host two_job_globals).1 0 (demo_rec 0) _ hsel
  · exact (((C5_heartbeat quick_host two_job_globals).2 hkeep
      [demo_rec 0, demo_rec 1, demo_rec 2] 0 100).2 _ hev).2 1 4 1 SLURM_SUCCESS rfl |>.1

/-! ## Failure of one record does not end the pass -/

/-- C6: when `job_test_resv` returns anything but `SLURM_SUCCESS` for a record, the placement
oracle is not called and `last_job_update` is not written (the trace grows by the
reservation call alone), and the loop goes on with the next record.  An iteration ends the
loop exactly when the record is on its default partition and either the job counter has
passed `max_backfill_job_cnt` or the placement oracle was called and the clock read after
it is `sched_timeout` or more past `sched_start`; the answer of the placement oracle plays
no part in it. -/
theorem C6_failure_containment {σ : Type} (H : Host σ) (g : Globals) (i : Nat)
    (r : job_queue_rec_t) (rest : List job_queue_rec_t) (s : PassState σ) :
    (reaches_resv H g r s → (resv_call H r s).1.1 ≠ SLURM_SUCCESS →
      (loop_body H g i r s).1 = Flow.next ∧
      (loop_body H g i r s).2.trace = s.trace ++
        [Event.mk i r (Call.job_test_resv s.now (resv_call H r s).1.1 (resv_call H r s).1.2.1)] ∧
      (loop_body H g i r s).2.last_job_update = s.last_job_update ∧
      while_loop H g i (r :: rest) s = while_loop H g (i + 1) rest (loop_body H g i r s).2) ∧
    ((loop_body H g i r s).1 = Flow.stop ↔
      r.part_ptr = r.job_ptr.part_ptr ∧
      (s.job_cnt > g.max_backfill_job_cnt ∨
        (reaches_select H g r s ∧ time_check H r s - s.sched_start ≥ g.sched_timeout))) := by
  constructor
  · intro hr hf
    have hb := loop_body_resv_failed H g i r s hr hf
    refine ⟨by rw [hb], by rw [hb], by rw [hb], ?_⟩
    rw [while_loop_cons]
    simp [hb]
  · by_cases hp : r.part_ptr = r.job_ptr.part_ptr
    · by_cases hc : s.job_cnt > g.max_backfill_job_cnt
      · rw [loop_body_over_count H g i r s hp hc]
        simp [hp, hc]
      · by_cases hwin : min_nodes r.job_ptr (H.part r.part_ptr) >
            max_nodes r.job_ptr (H.part r.part_ptr)
        · rw [loop_body_empty_window H g i r s hp hc hwin]
          simp [hc, reaches_select, reaches_resv, hwin]
        · by_cases hf : (resv_call H r s).1.1 = SLURM_SUCCESS
          · have hsel : reaches_select H g r s := ⟨⟨hp, hc, hwin⟩, hf⟩
            rw [loop_body_placed H g i r s hsel]
            by_cases ht : time_check H r s - s.sched_start ≥ g.sched_timeout
            · simp [hp, hsel, ht]
            · simp [hp, hc, ht]
          · rw [loop_body_resv_failed H g i r s ⟨hp, hc, hwin⟩ hf]
            simp [hc, reaches_select, hf]
    · rw [loop_body_non_default H g i r s hp]
      simp [hp]

/-- C6, applied: `job_test_resv` fails for the first of two records; the placement oracle
is not called for it, the timestamp stays 7, and the second record is evaluated. -/
theorem C6_failure_containment_witness :
    reaches_resv slow_resv_host two_job_globals (demo_rec 0) (pass_init slow_resv_host 7 100) ∧
    (resv_call slow_resv_host (demo_rec 0) (pass_init slow_resv_host 7 100)).1.1
      ≠ SLURM_SUCCESS ∧
    (loop_body slow_resv_host two_job_globals 0 (demo_rec 0)
      (pass_init slow_resv_host 7 100)).2.last_job_update = 7 ∧
    while_loop slow_resv_host two_job_globals 0 [demo_rec 0, demo_rec 1]
        (pass_init slow_resv_host 7 100) =
      while_loop slow_resv_host two_job_globals 1 [demo_rec 1]
        (loop_body slow_resv_host two_job_globals 0 (demo_rec 0)
          (pass_init slow_resv_host 7 100)).2 := by
  have hr : reaches_resv slow_resv_host two_job_globals (demo_rec 0)
      (pass_init slow_resv_host 7 100) := by
    unfold reaches_resv; decide
  have hf : (resv_call slow_resv_host (demo_rec 0) (pass_init slow_resv_host 7 100)).1.1
      ≠ SLURM_SUCCESS := by decide
  have hc := (C6_failure_containment slow_resv_host two_job_globals 0 (demo_rec 0) [demo_rec 1]
    (pass_init slow_resv_host 7 100)).1 hr hf
  exact ⟨hr, hf, hc.2.2.1, hc.2.2.2⟩

/-! ## The node-count window -/

/-- C7 as stated fails: for a job with no explicit maximum in a partition whose `max_nodes`
is 4294967295, the maximum passed to the placement oracle is 500000, not the partition's
`max_nodes`. -/
theorem C7_counterexample :
    (unlimited_rec 0).job_ptr.details.max_nodes = 0 ∧
    (quick_host.part (unlimited_rec 0).part_ptr).max_nodes = 4294967295 ∧
    Event.mk 0 (unlimited_rec 0) (Call.select_g_job_test 1 500000 1 SLURM_SUCCESS) ∈
      (_compute_start_times quick_host two_job_globals [unlimited_rec 0] 0 100).trace := by
  decide

/-- C7 (amended): in every call of the placement oracle made by a pass, the minimum is the
larger of the job's and the partition's `min_nodes`, and the maximum is the smaller of
500000 and the intersection maximum, which is the smaller of the job's and the partition's
`max_nodes` when the job has an explicit maximum and the partition's `max_nodes` when it
has none. -/
theorem C7_node_window {σ : Type} (H : Host σ) (g : Globals) (q : List job_queue_rec_t)
    (l : Int) (h : σ) (e : Event) (a b c : Nat) (rc : Int)
    (he : e ∈ (_compute_start_times H g q l h).trace)
    (hcall : e.call = Call.select_g_job_test a b c rc) :
    a = max e.entry.job_ptr.details.min_nodes (H.part e.entry.part_ptr).min_nodes ∧
    b = min
      (if e.entry.job_ptr.details.max_nodes = 0 then (H.part e.entry.part_ptr).max_nodes
       else min e.entry.job_ptr.details.max_nodes (H.part e.entry.part_ptr).max_nodes)
      500000 := by
  obtain ⟨r, _, hem⟩ := pass_trace H g q l h e he
  obtain ⟨_, hentry, _, _, hsel⟩ := hem
  obtain ⟨ha, hb, _⟩ := hsel a b c rc hcall
  subst hentry
  rw [ha, hb]
  unfold min_nodes max_nodes
  simp [MAX_eq_max, MIN_eq_min]

/-- C7 (amended), applied: a job asking for 1 node with no explicit maximum in the partition
of 1 to 4 nodes is offered to the placement oracle with the window 1 to 4. -/
theorem C7_node_window_witness :
    Event.mk 0 (demo_rec 0) (Call.select_g_job_test 1 4 1 SLURM_SUCCESS) ∈
      (_compute_start_times quick_host two_job_globals [demo_rec 0] 0 100).trace ∧
    (1 : Nat) = max (demo_rec 0).job_ptr.details.min_nodes
      (quick_host.part (demo_rec 0).part_ptr).min_nodes ∧
    (4 : Nat) = min
      (if (demo_rec 0).job_ptr.details.max_nodes = 0
       then (quick_host.part (demo_rec 0).part_ptr).max_nodes
       else min (demo_rec 0).job_ptr.details.max_nodes
         (quick_host.part (demo_rec 0).part_ptr).max_nodes)
      500000 :=
  ⟨by decide,
   C7_node_window quick_host two_job_globals [demo_rec 0] 0 100
     (Event.mk 0 (demo_rec 0) (Call.select_g_job_test 1 4 1 SLURM_SUCCESS)) 1 4 1 SLURM_SUCCESS
     (by decide) rfl⟩

/-- C8: in every call of the placement oracle made by a pass, the requested node count is
the minimum passed when the job has no explicit maximum and the maximum passed otherwise,
and it lies between the minimum and the maximum passed. -/
theorem C8_requested_nodes {σ : Type} (H : Host σ) (g : Globals) (q : List job_queue_rec_t)
    (l : Int) (h : σ) (e : Event) (a b c : Nat) (rc : Int)
    (he : e ∈ (_compute_start_times H g q l h).trace)
    (hcall : e.call = Call.select_g_job_test a b c rc) :
    c = (if e.entry.job_ptr.details.max_nodes = 0 then a else b) ∧ a ≤ c ∧ c ≤ b := by
  obtain ⟨r, _, hem⟩ := pass_trace H g q l h e he
  obtain ⟨_, hentry, _, hwin, hsel⟩ := hem
  obtain ⟨ha, hb, hc⟩ := hsel a b c rc hcall
  subst hentry
  rw [ha, hb, hc]
  unfold req_nodes
  by_cases hm : e.entry.job_ptr.details.max_nodes = 0
  · simp [hm, hwin]
  · simp [hm, hwin]

/-- C8, applied: for a job with no explicit maximum and the window 1 to 4 the requested
node count is 1. -/
theorem C8_requested_nodes_witness :
    Event.mk 0 (demo_rec 0) (Call.select_g_job_test 1 4 1 SLURM_SUCCESS) ∈
      (_compute_start_times quick_host two_job_globals [demo_rec 0] 0 100).trace ∧
    (1 : Nat) = (if (demo_rec 0).job_ptr.details.max_nodes = 0 then 1 else 4) ∧
    (1 : Nat) ≤ 1 ∧ (1 : Nat) ≤ 4 :=
  ⟨by decide,
   C8_requested_nodes quick_host two_job_globals [demo_rec 0] 0 100
     (Event.mk 0 (demo_rec 0) (Call.select_g_job_test 1 4 1 SLURM_SUCCESS)) 1 4 1 SLURM_SUCCESS
     (by decide) rfl⟩

/-! ## Loading the configuration -/

/-- C division by 2 agrees with floor division on non-negative values and is not positive
on negative ones. -/
theorem tdiv_two_cases (t : Int) :
    (0 ≤ t ∧ Int.tdiv t 2 = t / 2) ∨ (t < 0 ∧ Int.tdiv t 2 ≤ 0) := by
  by_cases ht : 0 ≤ t
  · exact Or.inl ⟨ht, Int.tdiv_eq_ediv ht (by omega)⟩
  · right
    refine ⟨by omega, ?_⟩
    have h1 : 0 ≤ Int.tdiv (-t) 2 := Int.tdiv_nonneg (by omega) (by omega)
    rw [Int.neg_tdiv] at h1
    omega

/-- The three outcomes of `_load_config`, in terms of the values that builtin.c:117-118 and
builtin.c:124-125 leave in `backfill_interval` and `max_backfill_job_cnt`. -/
theorem _load_config_eq (t : Int) (sp : Option (List Char)) (g : Globals) :
    _load_config t sp g =
      if load_interval sp g < 1 then Except.error (Fatal.invalid_interval (load_interval sp g))
      else if load_max_job_cnt sp g < 1 then
        Except.error (Fatal.invalid_max_job_bf (load_max_job_cnt sp g))
      else Except.ok
        { g with
          sched_timeout := MIN (MAX (Int.tdiv t 2) 1) 10,
          backfill_interval := load_interval sp g,
          max_backfill_job_cnt := load_max_job_cnt sp g } := by
  rfl

/-- C9: after every load that returns, the per-pass timeout `sched_timeout` is
min(max(t / 2, 1), 10) for the message timeout `t` reported by the host, with the division
taken as C does (truncating) or as floor division alike, and so lies between 1 and 10. -/
theorem C9_pass_timeout (t : Int) (sp : Option (List Char)) (g g1 : Globals)
    (hok : _load_config t sp g = Except.ok g1) :
    g1.sched_timeout = min (max (Int.tdiv t 2) 1) 10 ∧
    g1.sched_timeout = min (max (t / 2) 1) 10 ∧
    1 ≤ g1.sched_timeout ∧ g1.sched_timeout ≤ 10 := by
  rw [_load_config_eq] at hok
  split_ifs at hok
  cases hok
  simp only [MAX, MIN]
  rcases tdiv_two_cases t with ⟨h0, h1⟩ | ⟨h0, h1⟩
  · rw [h1]
    split_ifs <;> omega
  · split_ifs <;> omega

/-- C9, applied: a message timeout of 100 seconds gives a pass timeout of 10 seconds. -/
theorem C9_pass_timeout_witness :
    _load_config 100 none Globals.init =
      Except.ok { Globals.init with sched_timeout := 10 } ∧
    (10 : Int) = min (max (Int.tdiv 100 2) 1) 10 ∧
    (10 : Int) = min (max (100 / 2) 1) 10 ∧ (1 : Int) ≤ 10 ∧ (10 : Int) ≤ 10 :=
  ⟨rfl, C9_pass_timeout 100 none Globals.init { Globals.init with sched_timeout := 10 } rfl⟩

/-- A number in the range of `int` is returned by `atoi` as it is written. -/
theorem atoi_of_int_range (s : List Char) (hlo : -2147483648 ≤ numeral_value s)
    (hhi : numeral_value s ≤ 2147483647) : atoi s = numeral_value s := by
  unfold atoi strtol
  split_ifs <;> omega

/-- C10 as stated fails: the scheduling parameters `interval=-4294967295` supply a value
below 1, yet the load returns, with the interval 1: `atoi` keeps the low 32 bits of the
number, and the `int` that results is 1. -/
theorem C10_counterexample :
    strstr "interval=-4294967295".toList "interval=".toList =
      some "interval=-4294967295".toList ∧
    numeral_value ("interval=-4294967295".toList.drop 9) = -4294967295 ∧
    _load_config 10 (some "interval=-4294967295".toList) Globals.init =
      Except.ok { Globals.init with sched_timeout := 5, backfill_interval := 1 } :=
  ⟨by decide, by decide, rfl⟩

/-- C10 (amended): a load is fatal whenever the `int` that `atoi` returns for the text after
the first `interval=` of the scheduling parameters is below 1, and whenever the one for the
text after the first `max_job_bf=` is; every load that returns leaves `backfill_interval`
and `max_backfill_job_cnt` at 1 or more; a load is fatal exactly when the interval or the
job count that results from the scheduling parameters and the previous values is below 1;
and when the number written after the key lies in the range of `int` and is below 1, the
load is fatal. -/
theorem C10_load_validation (t : Int) (sp : Option (List Char)) (g : Globals) :
    (∀ p tmp_ptr, sp = some p → strstr p "interval=".toList = some tmp_ptr →
      atoi (tmp_ptr.drop 9) ≤ 0 → ∃ f, _load_config t sp g = Except.error f) ∧
    (∀ p tmp_ptr, sp = some p → strstr p "max_job_bf=".toList = some tmp_ptr →
      atoi (tmp_ptr.drop 11) ≤ 0 → ∃ f, _load_config t sp g = Except.error f) ∧
    (∀ g1, _load_config t sp g = Except.ok g1 →
      1 ≤ g1.backfill_interval ∧ 1 ≤ g1.max_backfill_job_cnt ∧
      g1.backfill_interval = load_interval sp g ∧
      g1.max_backfill_job_cnt = load_max_job_cnt sp g) ∧
    ((∃ f, _load_config t sp g = Except.error f) ↔
      load_interval sp g < 1 ∨ load_max_job_cnt sp g < 1) ∧
    (∀ p tmp_ptr, sp = some p → strstr p "interval=".toList = some tmp_ptr →
      -2147483648 ≤ numeral_value (tmp_ptr.drop 9) → numeral_value (tmp_ptr.drop 9) ≤ 0 →
      ∃ f, _load_config t sp g = Except.error f) ∧
    (∀ p tmp_ptr, sp = some p → strstr p "max_job_bf=".toList = some tmp_ptr →
      -2147483648 ≤ numeral_value (tmp_ptr.drop 11) → numeral_value (tmp_ptr.drop 11) ≤ 0 →
      ∃ f, _load_config t sp g = Except.error f) := by
  have hiff : (∃ f, _load_config t sp g = Except.error f) ↔
      load_interval sp g < 1 ∨ load_max_job_cnt sp g < 1 := by
    rw [_load_config_eq]
    split_ifs with h1 h2
    · simp [h1]
    · simp [h2]
    · simp [h1, h2]
  have hint : ∀ p tmp_ptr, sp = some p → strstr p "interval=".toList = some tmp_ptr →
      atoi (tmp_ptr.drop 9) ≤ 0 → ∃ f, _load_config t sp g = Except.error f := by
    intro p tmp_ptr hsp hstr hval
    refine hiff.mpr (Or.inl ?_)
    subst hsp
    simp only [load_interval, Option.bind, hstr]
    omega
  have hmax : ∀ p tmp_ptr, sp = some p → strstr p "max_job_bf=".toList = some tmp_ptr →
      atoi (tmp_ptr.drop 11) ≤ 0 → ∃ f, _load_config t sp g = Except.error f := by
    intro p tmp_ptr hsp hstr hval
    refine hiff.mpr (Or.inr ?_)
    subst hsp
    simp only [load_max_job_cnt, Option.bind, hstr]
    omega
  refine ⟨hint, hmax, ?_, hiff, ?_, ?_⟩
  · intro g1 hok
    rw [_load_config_eq] at hok
    split_ifs at hok with h1 h2
    cases hok
    exact ⟨by simp only []; omega, by simp only []; omega, rfl, rfl⟩
  · intro p tmp_ptr hsp hstr hlo hhi
    exact hint p tmp_ptr hsp hstr (by rw [atoi_of_int_range _ hlo (by omega)]; exact hhi)
  · intro p tmp_ptr hsp hstr hlo hhi
    exact hmax p tmp_ptr hsp hstr (by rw [atoi_of_int_range _ hlo (by omega)]; exact hhi)

/-- C10 (amended), applied: `interval=0` is fatal, `max_job_bf=-3` is fatal, and a load of
`interval=5,max_job_bf=7` returns with the interval 5 and the job count 7. -/
theorem C10_load_validation_witness :
    (∃ f, _load_config 10 (some "interval=0".toList) Globals.init = Except.error f) ∧
    numeral_value ("max_job_bf=-3".toList.drop 11) = -3 ∧
    (∃ f, _load_config 10 (some "interval=5,max_job_bf=-3".toList) Globals.init
      = Except.error f) ∧
    _load_config 10 (some "interval=5,max_job_bf=7".toList) Globals.init =
      Except.ok { Globals.init with
        sched_timeout := 5, backfill_interval := 5, max_backfill_job_cnt := 7 } ∧
    (1 : Int) ≤ 5 ∧ (1 : Int) ≤ 7 :=
  ⟨(C10_load_validation 10 (some "interval=0".toList) Globals.init).1
      "interval=0".toList "interval=0".toList rfl rfl (by decide),
   by decide,
   (C10_load_validation 10 (some "interval=5,max_job_bf=-3".toList) Globals.init).2.2.2.2.2
      "interval=5,max_job_bf=-3".toList "max_job_bf=-3".toList rfl rfl (by decide) (by decide),
   rfl,
   ((C10_load_validation 10 (some "interval=5,max_job_bf=7".toList) Globals.init).2.2.1
      { Globals.init with sched_timeout := 5, backfill_interval := 5, max_backfill_job_cnt := 7 }
      rfl).1,
   ((C10_load_validation 10 (some "interval=5,max_job_bf=7".toList) Globals.init).2.2.1
      { Globals.init with sched_timeout := 5, backfill_interval := 5, max_backfill_job_cnt := 7 }
      rfl).2.1⟩

/-! ## Reading decimal numbers -/

theorem digitChar_toNat : ∀ k, k < 10 → (Nat.digitChar k).toNat = 48 + k := by
  decide

theorem digits_value_cons_digit (c : Char) (cs : List Char) (acc : Int)
    (hc : 48 ≤ c.toNat ∧ c.toNat ≤ 57) :
    digits_value (c :: cs) acc = digits_value cs (acc * 10 + ((c.toNat : Int) - 48)) := by
  rw [digits_value, if_pos hc]

/-- The digits that `Nat.toDigitsCore` puts in front of `ds`: they are decimal digits, at
least one, and read from the left they continue a number by the digits of `n`. -/
theorem toDigitsCore_spec :
    ∀ (fuel n : Nat) (ds : List Char), n < fuel →
      ∃ pre, Nat.toDigitsCore 10 fuel n ds = pre ++ ds ∧ pre ≠ [] ∧
        (∀ c ∈ pre, 48 ≤ c.toNat ∧ c.toNat ≤ 57) ∧
        ∀ (rest : List Char) (acc : Int),
          digits_value (pre ++ rest) acc = digits_value rest (acc * 10 ^ pre.length + n) := by
  intro fuel
  induction fuel with
  | zero => intro n ds h; omega
  | succ fuel ih =>
    intro n ds hn
    have hd : (Nat.digitChar (n % 10)).toNat = 48 + n % 10 :=
      digitChar_toNat (n % 10) (Nat.mod_lt _ (by decide))
    have hdig : 48 ≤ (Nat.digitChar (n % 10)).toNat ∧ (Nat.digitChar (n % 10)).toNat ≤ 57 := by
      have := Nat.mod_lt n (show 10 > 0 by decide)
      omega
    rw [Nat.toDigitsCore]
    by_cases h0 : n / 10 = 0
    · simp only [h0, if_true]
      refine ⟨[Nat.digitChar (n % 10)], rfl, by simp, ?_, ?_⟩
      · intro c hc
        simp only [List.mem_singleton] at hc
        rw [hc]; exact hdig
      · intro rest acc
        rw [List.singleton_append, digits_value_cons_digit _ _ _ hdig, hd]
        congr 1
        simp only [List.length_singleton, pow_one]
        omega
    · simp only [h0, if_false]
      obtain ⟨pre, hpre, _, hall, hval⟩ := ih (n / 10) (Nat.digitChar (n % 10) :: ds) (by omega)
      refine ⟨pre ++ [Nat.digitChar (n % 10)], ?_, by simp, ?_, ?_⟩
      · rw [hpre]; simp
      · intro c hc
        rcases List.mem_append.mp hc with h | h
        · exact hall c h
        · simp only [List.mem_singleton] at h
          rw [h]; exact hdig
      · intro rest acc
        rw [List.append_assoc, hval, List.singleton_append,
          digits_value_cons_digit _ _ _ hdig, hd]
        congr 1
        have hsplit : ((n / 10 : Nat) : Int) * 10 + ((n % 10 : Nat) : Int) = (n : Int) := by
          omega
        rw [List.length_append, List.length_singleton, pow_succ]
        push_cast at hsplit ⊢
        linear_combination hsplit

/-- The decimal digits of `n` as `Nat.toDigits` writes them are digits, at least one, and
read back they give `n`. -/
theorem toDigits_spec (n : Nat) :
    Nat.toDigits 10 n ≠ [] ∧ (∀ c ∈ Nat.toDigits 10 n, 48 ≤ c.toNat ∧ c.toNat ≤ 57) ∧
    digits_value (Nat.toDigits 10 n) 0 = n := by
  obtain ⟨pre, hpre, hne, hall, hval⟩ := toDigitsCore_spec (n + 1) n [] (by omega)
  have heq : Nat.toDigits 10 n = pre := by
    unfold Nat.toDigits
    rw [hpre, List.append_nil]
  rw [heq]
  refine ⟨hne, hall, ?_⟩
  have h := hval [] 0
  rw [List.append_nil] at h
  rw [h, digits_value]
  simp

/-- A string that starts with a decimal digit denotes the value of its leading digits. -/
theorem numeral_value_of_digit (c : Char) (cs : List Char)
    (hc : 48 ≤ c.toNat ∧ c.toNat ≤ 57) :
    numeral_value (c :: cs) = digits_value (c :: cs) 0 := by
  have hsp : isspace c = false := by
    unfold isspace
    have h1 : ¬ c.toNat = 32 := by omega
    have h2 : ¬ c.toNat ≤ 13 := by omega
    simp [h1, h2]
  have hdrop : (c :: cs).dropWhile isspace = c :: cs := by
    rw [List.dropWhile_cons, hsp]
    simp
  unfold numeral_value
  rw [hdrop]
  split
  · rename_i r heq
    have : c = '-' := (List.cons.inj heq).1
    rw [this] at hc
    exact absurd hc (by decide)
  · rename_i r heq
    have : c = '+' := (List.cons.inj heq).1
    rw [this] at hc
    exact absurd hc (by decide)
  · rfl

/-- `atoi` reads a number written in decimal by `Nat.toDigits` as that number, as long as
it lies in the range of `int`. -/
theorem atoi_toDigits (n : Nat) (hn : n ≤ 2147483647) : atoi (Nat.toDigits 10 n) = n := by
  obtain ⟨hne, hall, hval⟩ := toDigits_spec n
  rcases hd : Nat.toDigits 10 n with _ | ⟨c, cs⟩
  · exact absurd hd hne
  · have hc : 48 ≤ c.toNat ∧ c.toNat ≤ 57 := hall c (by rw [hd]; simp)
    have hnum : numeral_value (c :: cs) = n := by
      rw [numeral_value_of_digit c cs hc, ← hd, hval]
    rw [atoi_of_int_range _ (by rw [hnum]; omega) (by rw [hnum]; omega), hnum]

/-! ## Missing keys -/

/-- C11 as stated fails: after a load of `interval=5,max_job_bf=7`, a reload whose scheduling
parameters are absent returns with the interval 5 and the job count 7, not with the
defaults 30 and 50. -/
theorem C11_counterexample :
    _load_config 10 (some "interval=5,max_job_bf=7".toList) Globals.init =
      Except.ok { Globals.init with
        sched_timeout := 5, backfill_interval := 5, max_backfill_job_cnt := 7 } ∧
    _load_config 10 none { Globals.init with
        sched_timeout := 5, backfill_interval := 5, max_backfill_job_cnt := 7 } =
      Except.ok { Globals.init with
        sched_timeout := 5, backfill_interval := 5, max_backfill_job_cnt := 7 } :=
  ⟨rfl, rfl⟩

/-- C11 (amended): a load that returns leaves `backfill_interval` as it was before the load
when the scheduling parameters are absent or do not contain `interval=`, and leaves
`max_backfill_job_cnt` as it was when they do not contain `max_job_bf=`.  On a load that
starts from the initial values of the file-scope variables these are the defaults 30 and
50; and from the initial values a load without scheduling parameters does return. -/
theorem C11_missing_keys (t : Int) (sp : Option (List Char)) (g g1 : Globals)
    (hok : _load_config t sp g = Except.ok g1) :
    (sp.bind (fun p => strstr p "interval=".toList) = none →
      g1.backfill_interval = g.backfill_interval ∧
      (g.backfill_interval = Globals.init.backfill_interval → g1.backfill_interval = 30)) ∧
    (sp.bind (fun p => strstr p "max_job_bf=".toList) = none →
      g1.max_backfill_job_cnt = g.max_backfill_job_cnt ∧
      (g.max_backfill_job_cnt = Globals.init.max_backfill_job_cnt →
        g1.max_backfill_job_cnt = 50)) ∧
    (∃ g2, _load_config t none Globals.init = Except.ok g2) := by
  rw [_load_config_eq] at hok
  split_ifs at hok with h1 h2
  cases hok
  refine ⟨?_, ?_, ⟨_, rfl⟩⟩
  · intro hnone
    have hval : load_interval sp g = g.backfill_interval := by
      simp only [load_interval, hnone]
    exact ⟨hval, fun hinit => by rw [show _ = load_interval sp g from rfl, hval, hinit]; rfl⟩
  · intro hnone
    have hval : load_max_job_cnt sp g = g.max_backfill_job_cnt := by
      simp only [load_max_job_cnt, hnone]
    exact ⟨hval, fun hinit => by rw [show _ = load_max_job_cnt sp g from rfl, hval, hinit]; rfl⟩

/-- C11 (amended), applied: the first load with the parameters `max_job_bf=7` has no
`interval=` and returns with the default interval 30. -/
theorem C11_missing_keys_witness :
    _load_config 10 (some "max_job_bf=7".toList) Globals.init =
      Except.ok { Globals.init with sched_timeout := 5, max_backfill_job_cnt := 7 } ∧
    (some "max_job_bf=7".toList).bind (fun p => strstr p "interval=".toList) = none ∧
    ({ Globals.init with sched_timeout := 5, max_backfill_job_cnt := 7 } : Globals).backfill_interval
      = 30 :=
  ⟨rfl, rfl,
   ((C11_missing_keys 10 (some "max_job_bf=7".toList) Globals.init
      { Globals.init with sched_timeout := 5, max_backfill_job_cnt := 7 } rfl).1 rfl).2 rfl⟩

/-! ## Accounting of the job counter -/

/-- The loop pops a prefix of the queue: the job counter grows by the number of records of
that prefix that are on their default partition, and every event added to the trace
carries a position inside the prefix. -/
theorem while_loop_prefix {σ : Type} (H : Host σ) (g : Globals) :
    ∀ (q : List job_queue_rec_t) (i : Nat) (s : PassState σ),
      ∃ n, n ≤ q.length ∧
        (while_loop H g i q s).job_cnt = s.job_cnt +
          (((q.take n).filter (fun r => r.part_ptr = r.job_ptr.part_ptr)).length : Int) ∧
        ∀ e ∈ (while_loop H g i q s).trace, e ∈ s.trace ∨ (i ≤ e.idx ∧ e.idx < i + n) := by
  intro q
  induction q with
  | nil =>
    intro i s
    exact ⟨0, by simp, by simp [while_loop_nil], fun e he => Or.inl (by simpa [while_loop_nil] using he)⟩
  | cons r q ih =>
    intro i s
    have hcnt : (loop_body H g i r s).2.job_cnt = s.job_cnt +
        ((([r].filter (fun r => r.part_ptr = r.job_ptr.part_ptr)).length : Nat) : Int) := by
      by_cases hp : r.part_ptr = r.job_ptr.part_ptr
      · by_cases hc : s.job_cnt > g.max_backfill_job_cnt
        · rw [loop_body_over_count H g i r s hp hc]; simp [hp]
        · by_cases hwin : min_nodes r.job_ptr (H.part r.part_ptr) >
              max_nodes r.job_ptr (H.part r.part_ptr)
          · rw [loop_body_empty_window H g i r s hp hc hwin]; simp [hp]
          · by_cases hf : (resv_call H r s).1.1 = SLURM_SUCCESS
            · rw [loop_body_placed H g i r s ⟨⟨hp, hc, hwin⟩, hf⟩]; simp [hp]
            · rw [loop_body_resv_failed H g i r s ⟨hp, hc, hwin⟩ hf]; simp [hp]
      · rw [loop_body_non_default H g i r s hp]; simp [hp]
    have htr : ∀ e ∈ (loop_body H g i r s).2.trace, e ∈ s.trace ∨ e.idx = i := by
      intro e he
      rcases loop_body_trace H g i r s e he with h | h
      · exact Or.inl h
      · exact Or.inr h.1
    rw [while_loop_cons]
    split
    · obtain ⟨n, hn, hjob, hev⟩ := ih (i + 1) (loop_body H g i r s).2
      refine ⟨n + 1, by simp [hn], ?_, ?_⟩
      · rw [hjob, hcnt]
        simp only [List.take_succ_cons, List.filter_cons, List.filter_nil]
        split <;> simp
        omega
      · intro e he
        rcases hev e he with h | h
        · rcases htr e h with h1 | h1
          · exact Or.inl h1
          · right; omega
        · right; omega
    · refine ⟨1, by simp, ?_, ?_⟩
      · rw [hcnt]; simp
      · intro e he
        rcases htr e he with h1 | h1
        · exact Or.inl h1
        · right; omega

/-- C20: the iteration for a record on its job's default partition advances `job_cnt` by
exactly one, whether the record is then evaluated, skipped for its node window, skipped
for a failed reservation test, or ends the loop; the iteration for a record on another
partition leaves `job_cnt` as it was.  A pass over any queue ends: it pops a prefix of
the queue in order, each record once, its final `job_cnt` is the number of popped records
that are on their default partition, and every event of its trace belongs to a popped
record. -/
theorem C20_budget_accounting {σ : Type} (H : Host σ) (g : Globals) (i : Nat)
    (r : job_queue_rec_t) (s : PassState σ) (q : List job_queue_rec_t) (l : Int) (h : σ) :
    (r.part_ptr = r.job_ptr.part_ptr → (loop_body H g i r s).2.job_cnt = s.job_cnt + 1) ∧
    (r.part_ptr ≠ r.job_ptr.part_ptr → (loop_body H g i r s).2.job_cnt = s.job_cnt) ∧
    (∃ n, n ≤ q.length ∧
      (_compute_start_times H g q l h).job_cnt =
        (((q.take n).filter (fun r => r.part_ptr = r.job_ptr.part_ptr)).length : Int) ∧
      ∀ e ∈ (_compute_start_times H g q l h).trace, e.idx < n) := by
  refine ⟨?_, ?_, ?_⟩
  · intro hp
    by_cases hc : s.job_cnt > g.max_backfill_job_cnt
    · rw [loop_body_over_count H g i r s hp hc]
    · by_cases hwin : min_nodes r.job_ptr (H.part r.part_ptr) >
          max_nodes r.job_ptr (H.part r.part_ptr)
      · rw [loop_body_empty_window H g i r s hp hc hwin]
      · by_cases hf : (resv_call H r s).1.1 = SLURM_SUCCESS
        · rw [loop_body_placed H g i r s ⟨⟨hp, hc, hwin⟩, hf⟩]
        · rw [loop_body_resv_failed H g i r s ⟨hp, hc, hwin⟩ hf]
  · intro hp
    rw [loop_body_non_default H g i r s hp]
  · obtain ⟨n, hn, hjob, hev⟩ := while_loop_prefix H g q 0 (pass_init H l h)
    refine ⟨n, hn, ?_, ?_⟩
    · unfold _compute_start_times
      rw [hjob]; simp [pass_init]
    · intro e he
      rcases hev e he with h0 | h0
      · simp [pass_init] at h0
      · omega

/-- C20, applied: of three records, the middle one under a partition that is not its job's
default, the pass with `max_backfill_job_cnt = 2` pops all three and ends with
`job_cnt = 2`. -/
theorem C20_budget_accounting_witness :
    (other_part_rec 1).part_ptr ≠ (other_part_rec 1).job_ptr.part_ptr ∧
    (loop_body quick_host two_job_globals 1 (other_part_rec 1)
      (pass_init quick_host 0 100)).2.job_cnt = 0 ∧
    (loop_body quick_host two_job_globals 0 (demo_rec 0)
      (pass_init quick_host 0 100)).2.job_cnt = 0 + 1 ∧
    (_compute_start_times quick_host two_job_globals
      [demo_rec 0, other_part_rec 1, demo_rec 2] 0 100).job_cnt = 2 :=
  ⟨by decide,
   (C20_budget_accounting quick_host two_job_globals 1 (other_part_rec 1)
      (pass_init quick_host 0 100) [] 0 100).2.1 (by decide),
   (C20_budget_accounting quick_host two_job_globals 0 (demo_rec 0)
      (pass_init quick_host 0 100) [] 0 100).1 (by decide),
   by decide⟩

/-! ## General lemmas about the agent -/

theorem deliver_stop_builtin (g : Globals) (rs : List Request) :
    (deliver g rs).stop_builtin = (g.stop_builtin || rs.contains Request.stop) := by
  induction rs generalizing g with
  | nil => simp [deliver]
  | cons r rs ih =>
    cases r
    · rw [deliver, ih]; simp [stop_builtin_agent]
    · rw [deliver, ih]; simp [builtin_reconfig]

theorem deliver_config_flag (g : Globals) (rs : List Request) :
    (deliver g rs).config_flag = (g.config_flag || rs.contains Request.reconfig) := by
  induction rs generalizing g with
  | nil => simp [deliver]
  | cons r rs ih =>
    cases r
    · rw [deliver, ih]; simp [stop_builtin_agent]
    · rw [deliver, ih]; simp [builtin_reconfig]

/-- Calls of other threads leave the three tunables alone. -/
theorem deliver_tunables (g : Globals) (rs : List Request) :
    (deliver g rs).backfill_interval = g.backfill_interval ∧
    (deliver g rs).max_backfill_job_cnt = g.max_backfill_job_cnt ∧
    (deliver g rs).sched_timeout = g.sched_timeout := by
  induction rs generalizing g with
  | nil => simp [deliver]
  | cons r rs ih =>
    cases r
    · rw [deliver]; simpa [stop_builtin_agent] using ih (stop_builtin_agent g)
    · rw [deliver]; simpa [builtin_reconfig] using ih (builtin_reconfig g)

/-- A load that returns leaves the two flags alone. -/
theorem _load_config_flags (t : Int) (sp : Option (List Char)) (g g1 : Globals)
    (hok : _load_config t sp g = Except.ok g1) :
    g1.stop_builtin = g.stop_builtin ∧ g1.config_flag = g.config_flag := by
  rw [_load_config_eq] at hok
  split_ifs at hok
  cases hok
  exact ⟨rfl, rfl⟩

theorem passes_append (l1 l2 : List AgentEvent) : passes (l1 ++ l2) = passes l1 ++ passes l2 := by
  induction l1 with
  | nil => rfl
  | cons e l1 ih => cases e <;> simp [passes, ih]

/-- What `_my_sleep` leaves unchanged, and what it does to the flags. -/
theorem _my_sleep_eq {σ : Type} (AH : AgentHost σ) (secs : Int) (during : List Request)
    (s : AgentState σ) :
    (_my_sleep AH secs during s).g = deliver s.g during ∧
    (_my_sleep AH secs during s).log = s.log ∧
    (_my_sleep AH secs during s).last_backfill_time = s.last_backfill_time ∧
    (_my_sleep AH secs during s).last_job_update = s.last_job_update := by
  unfold _my_sleep
  simp only []
  split <;> exact ⟨rfl, rfl, rfl, rfl⟩

/-- What the statement of builtin.c:223-226 does when it returns. -/
theorem reload_if_flagged_ok {σ : Type} (AH : AgentHost σ) (s s2 : AgentState σ)
    (hok : reload_if_flagged AH s = Except.ok s2) :
    s2.host = s.host ∧ s2.last_backfill_time = s.last_backfill_time ∧
    s2.last_job_update = s.last_job_update ∧
    s2.g.stop_builtin = s.g.stop_builtin ∧ s2.g.config_flag = false ∧
    ((s.g.config_flag = false ∧ s2 = s) ∨
     (s.g.config_flag = true ∧ s2.log = s.log ++ [AgentEvent.load_config none] ∧
      _load_config (AH.slurm_get_msg_timeout s.host) (AH.slurm_get_sched_params s.host)
        { s.g with config_flag := false } = Except.ok s2.g)) := by
  unfold reload_if_flagged at hok
  by_cases hflag : s.g.config_flag = true
  · rw [if_pos hflag] at hok
    rcases hl : _load_config (AH.slurm_get_msg_timeout s.host) (AH.slurm_get_sched_params s.host)
        { s.g with config_flag := false } with f | g1
    · rw [hl] at hok; cases hok
    · rw [hl] at hok
      cases hok
      have hfl := _load_config_flags _ _ _ _ hl
      exact ⟨rfl, rfl, rfl, hfl.1, hfl.2, Or.inr ⟨hflag, rfl, rfl⟩⟩
  · rw [if_neg hflag] at hok
    cases hok
    have hf : s.g.config_flag = false := by simpa using hflag
    exact ⟨rfl, rfl, rfl, rfl, hf, Or.inl ⟨hf, rfl⟩⟩

/-- The statement of builtin.c:223-226 ends the process exactly when the flag is set and
the load is fatal. -/
theorem reload_if_flagged_error {σ : Type} (AH : AgentHost σ) (s : AgentState σ) (f : Fatal) :
    reload_if_flagged AH s = Except.error f ↔
      s.g.config_flag = true ∧
      _load_config (AH.slurm_get_msg_timeout s.host) (AH.slurm_get_sched_params s.host)
        { s.g with config_flag := false } = Except.error f := by
  unfold reload_if_flagged
  by_cases hflag : s.g.config_flag = true
  · rw [if_pos hflag]
    rcases hl : _load_config (AH.slurm_get_msg_timeout s.host) (AH.slurm_get_sched_params s.host)
        { s.g with config_flag := false } with f1 | g1
    · simp [hflag]
    · simp
  · rw [if_neg hflag]
    simp [hflag]

/-! ## What one iteration of the agent does, case by case -/

theorem agent_iteration_stopping {σ : Type} (AH : AgentHost σ) (a b : List Request)
    (s : AgentState σ)
    (hstop : (_my_sleep AH s.g.backfill_interval a s).g.stop_builtin = true) :
    agent_iteration AH a b s = Outcome.exited (_my_sleep AH s.g.backfill_interval a s) := by
  unfold agent_iteration
  simp only []
  rw [if_pos hstop]

theorem agent_iteration_fatal {σ : Type} (AH : AgentHost σ) (a b : List Request)
    (s : AgentState σ) (f : Fatal)
    (hstop : (_my_sleep AH s.g.backfill_interval a s).g.stop_builtin = false)
    (herr : reload_if_flagged AH (_my_sleep AH s.g.backfill_interval a s) = Except.error f) :
    agent_iteration AH a b s =
      Outcome.fatal f { _my_sleep AH s.g.backfill_interval a s with
        g := { (_my_sleep AH s.g.backfill_interval a s).g with config_flag := false },
        log := (_my_sleep AH s.g.backfill_interval a s).log ++
          [AgentEvent.load_config (some f)] } := by
  unfold agent_iteration
  simp only []
  rw [if_neg (by simp [hstop]), herr]

theorem agent_iteration_reloaded {σ : Type} (AH : AgentHost σ) (a b : List Request)
    (s s2 : AgentState σ)
    (hstop : (_my_sleep AH s.g.backfill_interval a s).g.stop_builtin = false)
    (hok : reload_if_flagged AH (_my_sleep AH s.g.backfill_interval a s) = Except.ok s2) :
    agent_iteration AH a b s =
      if difftime (AH.sched.time s2.host).1 s2.last_backfill_time < s2.g.backfill_interval then
        Outcome.running { s2 with host := (AH.sched.time s2.host).2, g := deliver s2.g b }
      else
        Outcome.running { locked_pass AH { s2 with host := (AH.sched.time s2.host).2 } with
          g := deliver (locked_pass AH { s2 with host := (AH.sched.time s2.host).2 }).g b } := by
  unfold agent_iteration
  simp only []
  rw [if_neg (by simp [hstop]), hok]

/-! ## Stopping -/

/-- C13: `stop_builtin_agent` sets `stop_builtin`, and once it is set it stays set under
`stop_builtin_agent`, `builtin_reconfig`, any calls of other threads, a configuration load
that returns, and an iteration of the agent loop.  An iteration that finds the flag set
after its sleep leaves the loop: it does not load the configuration, take the locks or
run a pass (the log, the three tunables and `last_backfill_time` are as before), and
the loop guard lets no further iteration start. -/
theorem C13_stop_is_final {σ : Type} (AH : AgentHost σ) (a b : List Request)
    (s : AgentState σ) :
    (∀ g, (stop_builtin_agent g).stop_builtin = true) ∧
    (∀ g, g.stop_builtin = true →
      (builtin_reconfig g).stop_builtin = true ∧
      (∀ rs, (deliver g rs).stop_builtin = true) ∧
      (∀ t sp g1, _load_config t sp g = Except.ok g1 → g1.stop_builtin = true)) ∧
    (s.g.stop_builtin = true →
      (agent_iteration AH a b s).state.g.stop_builtin = true ∧
      ∀ x schedule, agent_loop AH (x :: schedule) s = Outcome.exited s) ∧
    ((_my_sleep AH s.g.backfill_interval a s).g.stop_builtin = true →
      agent_iteration AH a b s = Outcome.exited (_my_sleep AH s.g.backfill_interval a s) ∧
      (agent_iteration AH a b s).state.log = s.log ∧
      (agent_iteration AH a b s).state.g.backfill_interval = s.g.backfill_interval ∧
      (agent_iteration AH a b s).state.g.max_backfill_job_cnt = s.g.max_backfill_job_cnt ∧
      (agent_iteration AH a b s).state.g.sched_timeout = s.g.sched_timeout ∧
      (agent_iteration AH a b s).state.last_backfill_time = s.last_backfill_time ∧
      ∀ x schedule, agent_loop AH (x :: schedule) (agent_iteration AH a b s).state =
        Outcome.exited (agent_iteration AH a b s).state) := by
  have hexit : ∀ (s0 : AgentState σ), s0.g.stop_builtin = true →
      ∀ x schedule, agent_loop AH (x :: schedule) s0 = Outcome.exited s0 := by
    intro s0 h0 x schedule
    obtain ⟨x1, x2⟩ := x
    rw [agent_loop, if_pos h0]
  refine ⟨fun g => rfl, ?_, ?_, ?_⟩
  · intro g hg
    refine ⟨hg, fun rs => ?_, fun t sp g1 hok => ?_⟩
    · rw [deliver_stop_builtin, hg]; rfl
    · rw [(_load_config_flags t sp g g1 hok).1, hg]
  · intro hs
    have hsl : (_my_sleep AH s.g.backfill_interval a s).g.stop_builtin = true := by
      rw [(_my_sleep_eq AH _ a s).1, deliver_stop_builtin, hs]; rfl
    refine ⟨?_, hexit s hs⟩
    rw [agent_iteration_stopping AH a b s hsl]
    exact hsl
  · intro hsl
    have hit := agent_iteration_stopping AH a b s hsl
    have hsleep := _my_sleep_eq AH s.g.backfill_interval a s
    have htun := deliver_tunables s.g a
    refine ⟨hit, ?_, ?_, ?_, ?_, ?_, ?_⟩
    · rw [hit]; exact hsleep.2.1
    · rw [hit]; show (_my_sleep AH s.g.backfill_interval a s).g.backfill_interval = _
      rw [hsleep.1]; exact htun.1
    · rw [hit]; show (_my_sleep AH s.g.backfill_interval a s).g.max_backfill_job_cnt = _
      rw [hsleep.1]; exact htun.2.1
    · rw [hit]; show (_my_sleep AH s.g.backfill_interval a s).g.sched_timeout = _
      rw [hsleep.1]; exact htun.2.2
    · rw [hit]; exact hsleep.2.2.1
    · rw [hit]; exact hexit _ hsl

/-- C13, applied: `stop_builtin_agent` is called while the agent sleeps; the iteration
leaves the loop with the log as it was, though a pass was due. -/
theorem C13_stop_is_final_witness :
    (_my_sleep demo_agent_host demo_agent_state.g.backfill_interval [Request.stop]
      demo_agent_state).g.stop_builtin = true ∧
    (agent_iteration demo_agent_host [Request.stop] [] demo_agent_state).state.log =
      demo_agent_state.log ∧
    (agent_iteration demo_agent_host [] [] demo_agent_state).state.log =
      demo_agent_state.log ++ [AgentEvent.lock, AgentEvent.pass 130 30, AgentEvent.unlock] :=
  ⟨by decide,
   ((C13_stop_is_final demo_agent_host [Request.stop] [] demo_agent_state).2.2.2
      (by decide)).2.1,
   by decide⟩

/-! ## Reconfiguration -/

/-- C14: in an iteration that is not stopping after its sleep and finds `config_flag` set,
the flag is cleared and `_load_config` is called before anything else.  When the load is
fatal, which it is whenever the reloaded interval or job count is below 1, the iteration
ends fatally and the log grows by the failed load alone: no locks are taken and no pass
is run.  When the load returns, the log grows by the load, followed either by nothing or
by one locked pass; the pass is run exactly when the time since `last_backfill_time` is
not below the reloaded `backfill_interval`, and the flag is set afterwards only if
`builtin_reconfig` was called again meanwhile.  A scheduling pass does not read
`config_flag`: a call of `builtin_reconfig` changes neither a loop iteration of the pass
nor the pass as a whole. -/
theorem C14_reconfigure {σ : Type} (AH : AgentHost σ) (a b : List Request) (s : AgentState σ)
    (hrun : (_my_sleep AH s.g.backfill_interval a s).g.stop_builtin = false)
    (hflag : (_my_sleep AH s.g.backfill_interval a s).g.config_flag = true) :
    (∀ f, _load_config
        (AH.slurm_get_msg_timeout (_my_sleep AH s.g.backfill_interval a s).host)
        (AH.slurm_get_sched_params (_my_sleep AH s.g.backfill_interval a s).host)
        { (_my_sleep AH s.g.backfill_interval a s).g with config_flag := false }
          = Except.error f →
      (∃ s1, agent_iteration AH a b s = Outcome.fatal f s1) ∧
      (agent_iteration AH a b s).state.log = s.log ++ [AgentEvent.load_config (some f)]) ∧
    ((load_interval (AH.slurm_get_sched_params (_my_sleep AH s.g.backfill_interval a s).host)
          (_my_sleep AH s.g.backfill_interval a s).g < 1 ∨
      load_max_job_cnt (AH.slurm_get_sched_params (_my_sleep AH s.g.backfill_interval a s).host)
          (_my_sleep AH s.g.backfill_interval a s).g < 1) →
      ∃ f s1, agent_iteration AH a b s = Outcome.fatal f s1 ∧
        s1.log = s.log ++ [AgentEvent.load_config (some f)]) ∧
    (∀ g1, _load_config
        (AH.slurm_get_msg_timeout (_my_sleep AH s.g.backfill_interval a s).host)
        (AH.slurm_get_sched_params (_my_sleep AH s.g.backfill_interval a s).host)
        { (_my_sleep AH s.g.backfill_interval a s).g with config_flag := false }
          = Except.ok g1 →
      g1.config_flag = false ∧
      (agent_iteration AH a b s).state.g = deliver g1 b ∧
      ((difftime (clock AH.sched (_my_sleep AH s.g.backfill_interval a s).host)
            s.last_backfill_time < g1.backfill_interval ∧
        (agent_iteration AH a b s).state.log = s.log ++ [AgentEvent.load_config none]) ∨
       (¬ difftime (clock AH.sched (_my_sleep AH s.g.backfill_interval a s).host)
            s.last_backfill_time < g1.backfill_interval ∧
        ∃ t, (agent_iteration AH a b s).state.log = s.log ++
          [AgentEvent.load_config none, AgentEvent.lock,
           AgentEvent.pass t g1.backfill_interval, AgentEvent.unlock]))) ∧
    (∀ (H : Host σ) (g : Globals) (i : Nat) (r : job_queue_rec_t) (p : PassState σ)
        (q : List job_queue_rec_t) (l : Int) (h : σ),
      loop_body H (builtin_reconfig g) i r p = loop_body H g i r p ∧
      _compute_start_times H (builtin_reconfig g) q l h = _compute_start_times H g q l h) := by
  have hsleep := _my_sleep_eq AH s.g.backfill_interval a s
  have hfatal : ∀ f, _load_config
        (AH.slurm_get_msg_timeout (_my_sleep AH s.g.backfill_interval a s).host)
        (AH.slurm_get_sched_params (_my_sleep AH s.g.backfill_interval a s).host)
        { (_my_sleep AH s.g.backfill_interval a s).g with config_flag := false }
          = Except.error f →
      (∃ s1, agent_iteration AH a b s = Outcome.fatal f s1) ∧
      (agent_iteration AH a b s).state.log = s.log ++ [AgentEvent.load_config (some f)] := by
    intro f hf
    have herr := (reload_if_flagged_error AH _ f).mpr ⟨hflag, hf⟩
    have hit := agent_iteration_fatal AH a b s f hrun herr
    refine ⟨⟨_, hit⟩, ?_⟩
    rw [hit]
    show (_my_sleep AH s.g.backfill_interval a s).log ++ _ = _
    rw [hsleep.2.1]
  refine ⟨hfatal, ?_, ?_, ?_⟩
  · intro hbad
    rcases hl : _load_config
        (AH.slurm_get_msg_timeout (_my_sleep AH s.g.backfill_interval a s).host)
        (AH.slurm_get_sched_params (_my_sleep AH s.g.backfill_interval a s).host)
        { (_my_sleep AH s.g.backfill_interval a s).g with config_flag := false } with f | g1
    · obtain ⟨⟨s1, hs1⟩, hlog⟩ := hfatal f hl
      refine ⟨f, s1, hs1, ?_⟩
      rw [hs1] at hlog
      exact hlog
    · exfalso
      rw [_load_config_eq] at hl
      have h1 : load_interval
          (AH.slurm_get_sched_params (_my_sleep AH s.g.backfill_interval a s).host)
          { (_my_sleep AH s.g.backfill_interval a s).g with config_flag := false } =
          load_interval
          (AH.slurm_get_sched_params (_my_sleep AH s.g.backfill_interval a s).host)
          (_my_sleep AH s.g.backfill_interval a s).g := rfl
      have h2 : load_max_job_cnt
          (AH.slurm_get_sched_params (_my_sleep AH s.g.backfill_interval a s).host)
          { (_my_sleep AH s.g.backfill_interval a s).g with config_flag := false } =
          load_max_job_cnt
          (AH.slurm_get_sched_params (_my_sleep AH s.g.backfill_interval a s).host)
          (_my_sleep AH s.g.backfill_interval a s).g := rfl
      rw [h1, h2] at hl
      split_ifs at hl with c1 c2
      rcases hbad with hb | hb
      · exact c1 hb
      · exact c2 hb
  · intro g1 hl
    have hfl := _load_config_flags _ _ _ _ hl
    have hok : reload_if_flagged AH (_my_sleep AH s.g.backfill_interval a s) =
        Except.ok { _my_sleep AH s.g.backfill_interval a s with
          g := g1,
          log := (_my_sleep AH s.g.backfill_interval a s).log ++
            [AgentEvent.load_config none] } := by
      unfold reload_if_flagged
      rw [if_pos hflag, hl]
    have hit := agent_iteration_reloaded AH a b s _ hrun hok
    simp only [] at hit
    refine ⟨hfl.2, ?_, ?_⟩
    · rw [hit]
      split <;> rfl
    · rw [hit, ← hsleep.2.2.1]
      unfold clock
      by_cases ht : difftime (AH.sched.time (_my_sleep AH s.g.backfill_interval a s).host).1
          (_my_sleep AH s.g.backfill_interval a s).last_backfill_time < g1.backfill_interval
      · left
        rw [if_pos ht]
        refine ⟨ht, ?_⟩
        show (_my_sleep AH s.g.backfill_interval a s).log ++ _ = _
        rw [hsleep.2.1]
      · right
        rw [if_neg ht]
        refine ⟨ht, ?_⟩
        eapply Exists.intro
        show ((_my_sleep AH s.g.backfill_interval a s).log ++ _) ++ _ = _
        rw [hsleep.2.1, List.append_assoc]
        rfl
  · intro H g i r p q l h
    have hbody : ∀ i r (p : PassState σ), loop_body H (builtin_reconfig g) i r p =
        loop_body H g i r p := fun _ _ _ => rfl
    refine ⟨hbody i r p, ?_⟩
    unfold _compute_start_times
    generalize pass_init H l h = p0
    generalize (0 : Nat) = k
    induction q generalizing k p0 with
    | nil => simp [while_loop_nil]
    | cons r1 q ih => rw [while_loop_cons, while_loop_cons, hbody, ih]

/-- C14, applied: `builtin_reconfig` is called while the agent sleeps and the scheduling
parameters have become `interval=0`; the iteration ends fatally and the log grows by the
failed load alone. -/
theorem C14_reconfigure_witness :
    (_my_sleep demo_agent_host 30 [Request.reconfig]
      { demo_agent_state with host := 1000 }).g.stop_builtin = false ∧
    (_my_sleep demo_agent_host 30 [Request.reconfig]
      { demo_agent_state with host := 1000 }).g.config_flag = true ∧
    (agent_iteration demo_agent_host [Request.reconfig] []
      { demo_agent_state with host := 1000 }).state.log =
      [AgentEvent.load_config none,
       AgentEvent.load_config (some (Fatal.invalid_interval 0))] :=
  ⟨by decide, by decide,
   ((C14_reconfigure demo_agent_host [Request.reconfig] []
      { demo_agent_state with host := 1000 } (by decide) (by decide)).1
      (Fatal.invalid_interval 0) rfl).2⟩

/-! ## Spacing of the passes -/

/-- With a clock that never goes back, a pass starts at the clock reading of the host
state it is given and ends in a host state whose clock reading is not below it. -/
theorem pass_clock {σ : Type} (AH : AgentHost σ) (hmono : clock_non_decreasing AH)
    (g : Globals) (q : List job_queue_rec_t) (l : Int) (h : σ) :
    (_compute_start_times AH.sched g q l h).sched_start = clock AH.sched h ∧
    clock AH.sched h ≤ clock AH.sched (_compute_start_times AH.sched g q l h).host := by
  obtain ⟨m1, m2, m3, _, _, _⟩ := hmono
  have hinv := while_loop_invariant AH.sched g
    (fun s => s.sched_start = clock AH.sched h ∧ clock AH.sched h ≤ clock AH.sched s.host)
    (by
      intro i r s ⟨h1, h2⟩
      by_cases hp : r.part_ptr = r.job_ptr.part_ptr
      · by_cases hc : s.job_cnt > g.max_backfill_job_cnt
        · rw [loop_body_over_count AH.sched g i r s hp hc]; exact ⟨h1, h2⟩
        · by_cases hwin : min_nodes r.job_ptr (AH.sched.part r.part_ptr) >
              max_nodes r.job_ptr (AH.sched.part r.part_ptr)
          · rw [loop_body_empty_window AH.sched g i r s hp hc hwin]; exact ⟨h1, h2⟩
          · have hr : clock AH.sched s.host ≤ clock AH.sched (resv_call AH.sched r s).2 :=
              m2 _ _ _ _
            by_cases hf : (resv_call AH.sched r s).1.1 = SLURM_SUCCESS
            · rw [loop_body_placed AH.sched g i r s ⟨⟨hp, hc, hwin⟩, hf⟩]
              have hsel : clock AH.sched (resv_call AH.sched r s).2 ≤
                  clock AH.sched (select_call AH.sched r s).2 := m3 _ _ _ _ _ _
              have ht := m1 (select_call AH.sched r s).2
              exact ⟨h1, by simp only []; omega⟩
            · rw [loop_body_resv_failed AH.sched g i r s ⟨hp, hc, hwin⟩ hf]
              exact ⟨h1, by simp only []; omega⟩
      · rw [loop_body_non_default AH.sched g i r s hp]; exact ⟨h1, h2⟩)
    q 0 (pass_init AH.sched l h) ⟨rfl, m1 h⟩
  exact hinv

/-- What an iteration of the agent loop does to the list of passes and to
`last_backfill_time`: either both stay as they were, or one pass is added, admitted
because the reading of `time(NULL)` after the sleep was at least `backfill_interval`
past `last_backfill_time`; with a clock that never goes back that pass starts no earlier
than this reading and no later than the new `last_backfill_time`. -/
theorem agent_iteration_passes {σ : Type} (AH : AgentHost σ) (a b : List Request)
    (s : AgentState σ) :
    (passes (agent_iteration AH a b s).state.log = passes s.log ∧
      (agent_iteration AH a b s).state.last_backfill_time = s.last_backfill_time) ∨
    (∃ t, passes (agent_iteration AH a b s).state.log =
        passes s.log ++ [(t, (agent_iteration AH a b s).state.g.backfill_interval)] ∧
      (agent_iteration AH a b s).state.g.backfill_interval ≤
        difftime (clock AH.sched (_my_sleep AH s.g.backfill_interval a s).host)
          s.last_backfill_time ∧
      (clock_non_decreasing AH →
        clock AH.sched (_my_sleep AH s.g.backfill_interval a s).host ≤ t ∧
        t ≤ (agent_iteration AH a b s).state.last_backfill_time)) := by
  have hsleep := _my_sleep_eq AH s.g.backfill_interval a s
  by_cases hstop : (_my_sleep AH s.g.backfill_interval a s).g.stop_builtin = true
  · left
    rw [agent_iteration_stopping AH a b s hstop]
    exact ⟨by show passes (_my_sleep AH s.g.backfill_interval a s).log = _; rw [hsleep.2.1],
      hsleep.2.2.1⟩
  · have hrun : (_my_sleep AH s.g.backfill_interval a s).g.stop_builtin = false := by
      simpa using hstop
    rcases hre : reload_if_flagged AH (_my_sleep AH s.g.backfill_interval a s) with f | s2
    · left
      rw [agent_iteration_fatal AH a b s f hrun hre]
      refine ⟨?_, hsleep.2.2.1⟩
      show passes ((_my_sleep AH s.g.backfill_interval a s).log ++ _) = _
      rw [passes_append, hsleep.2.1]
      simp [passes]
    · obtain ⟨hhost, hlast, _, _, _, hcase⟩ := reload_if_flagged_ok AH _ s2 hre
      have hpass2 : passes s2.log = passes s.log := by
        rcases hcase with ⟨_, h2⟩ | ⟨_, h2, _⟩
        · rw [h2, hsleep.2.1]
        · rw [h2, passes_append, hsleep.2.1]; simp [passes]
      rw [agent_iteration_reloaded AH a b s s2 hrun hre]
      by_cases ht : difftime (AH.sched.time s2.host).1 s2.last_backfill_time <
          s2.g.backfill_interval
      · left
        rw [if_pos ht]
        exact ⟨hpass2, by show s2.last_backfill_time = _; rw [hlast, hsleep.2.2.1]⟩
      · right
        rw [if_neg ht]
        refine ⟨(_compute_start_times AH.sched s2.g
          (AH.build_job_queue (AH.lock_slurmctld (AH.sched.time s2.host).2)) s2.last_job_update
          (AH.lock_slurmctld (AH.sched.time s2.host).2)).sched_start, ?_, ?_, ?_⟩
        · show passes (s2.log ++ _) = _ ++ [(_, (deliver s2.g b).backfill_interval)]
          rw [passes_append, hpass2, (deliver_tunables s2.g b).1]
          simp [passes]
        · show (deliver s2.g b).backfill_interval ≤ _
          rw [(deliver_tunables s2.g b).1, ← hhost, ← hsleep.2.2.1, ← hlast]
          unfold clock
          omega
        · intro hmono
          have hp := pass_clock AH hmono s2.g
            (AH.build_job_queue (AH.lock_slurmctld (AH.sched.time s2.host).2))
            s2.last_job_update (AH.lock_slurmctld (AH.sched.time s2.host).2)
          obtain ⟨m1, _, _, _, m5, _⟩ := hmono
          have h1 := m1 s2.host
          have h5 := m5 (AH.sched.time s2.host).2
          rw [← hhost]
          refine ⟨by rw [hp.1]; omega, ?_⟩
          show _ ≤ clock AH.sched _
          rw [hp.1]
          exact hp.2

/-- With a clock that never goes back, an iteration of the agent loop does not move the
clock back, and if `last_backfill_time` was not ahead of the clock before the iteration
it is not ahead of it afterwards. -/
theorem agent_iteration_clock {σ : Type} (AH : AgentHost σ) (hmono : clock_non_decreasing AH)
    (a b : List Request) (s : AgentState σ) :
    clock AH.sched s.host ≤ clock AH.sched (_my_sleep AH s.g.backfill_interval a s).host ∧
    (s.last_backfill_time ≤ clock AH.sched s.host →
      (agent_iteration AH a b s).state.last_backfill_time ≤
        clock AH.sched (agent_iteration AH a b s).state.host) := by
  have hsleep := _my_sleep_eq AH s.g.backfill_interval a s
  obtain ⟨m1, _, _, m4, m5, m6⟩ := hmono
  have hsl : clock AH.sched s.host ≤
      clock AH.sched (_my_sleep AH s.g.backfill_interval a s).host := by
    unfold _my_sleep
    simp only []
    have h1 := m1 s.host
    split
    · have h4 := m4 ((AH.sched.time s.host).1 + s.g.backfill_interval) (AH.sched.time s.host).2
      simp only []; omega
    · exact h1
  refine ⟨hsl, fun hlast => ?_⟩
  by_cases hstop : (_my_sleep AH s.g.backfill_interval a s).g.stop_builtin = true
  · rw [agent_iteration_stopping AH a b s hstop]
    show (_my_sleep AH s.g.backfill_interval a s).last_backfill_time ≤ _
    rw [hsleep.2.2.1]
    exact le_trans hlast hsl
  · have hrun : (_my_sleep AH s.g.backfill_interval a s).g.stop_builtin = false := by
      simpa using hstop
    rcases hre : reload_if_flagged AH (_my_sleep AH s.g.backfill_interval a s) with f | s2
    · rw [agent_iteration_fatal AH a b s f hrun hre]
      show (_my_sleep AH s.g.backfill_interval a s).last_backfill_time ≤
        clock AH.sched (_my_sleep AH s.g.backfill_interval a s).host
      rw [hsleep.2.2.1]
      exact le_trans hlast hsl
    · obtain ⟨hhost, hlast2, _, _, _, _⟩ := reload_if_flagged_ok AH _ s2 hre
      rw [agent_iteration_reloaded AH a b s s2 hrun hre]
      have h1 := m1 s2.host
      split
      · show s2.last_backfill_time ≤ clock AH.sched (AH.sched.time s2.host).2
        rw [hlast2, hsleep.2.2.1]
        rw [hhost] at h1 ⊢
        omega
      · show (locked_pass AH { s2 with host := (AH.sched.time s2.host).2 }).last_backfill_time ≤
          clock AH.sched (locked_pass AH { s2 with host := (AH.sched.time s2.host).2 }).host
        unfold locked_pass
        simp only []
        exact le_trans (m1 _) (m6 _)

/-- With a clock that never goes back, the agent loop keeps the passes spaced: if
`last_backfill_time` is not ahead of the clock, no logged pass started after
`last_backfill_time`, and each logged pass started at least the `backfill_interval` it
was admitted under after the pass before it, then the same holds when the loop ends. -/
theorem agent_loop_spacing {σ : Type} (AH : AgentHost σ) (hmono : clock_non_decreasing AH) :
    ∀ (schedule : List (List Request × List Request)) (s : AgentState σ),
      s.last_backfill_time ≤ clock AH.sched s.host →
      (∀ p ∈ passes s.log, p.1 ≤ s.last_backfill_time) →
      List.Chain' (fun p1 p2 : Int × Int => p2.2 ≤ p2.1 - p1.1) (passes s.log) →
      List.Chain' (fun p1 p2 : Int × Int => p2.2 ≤ p2.1 - p1.1)
        (passes (agent_loop AH schedule s).state.log) := by
  intro schedule
  induction schedule with
  | nil => intro s _ _ hch; exact hch
  | cons x schedule ih =>
    intro s hlast hold hch
    obtain ⟨a, b⟩ := x
    rw [agent_loop]
    split
    · exact hch
    · have hclk := agent_iteration_clock AH hmono a b s
      have hlast1 := hclk.2 hlast
      have hstep : (∀ p ∈ passes (agent_iteration AH a b s).state.log,
            p.1 ≤ (agent_iteration AH a b s).state.last_backfill_time) ∧
          List.Chain' (fun p1 p2 : Int × Int => p2.2 ≤ p2.1 - p1.1)
            (passes (agent_iteration AH a b s).state.log) := by
        rcases agent_iteration_passes AH a b s with ⟨hp, hl⟩ | ⟨t, hp, hiv, hclock⟩
        · rw [hp, hl]; exact ⟨hold, hch⟩
        · obtain ⟨ht1, ht2⟩ := hclock hmono
          have hsl := hclk.1
          unfold difftime at hiv
          rw [hp]
          constructor
          · intro p hp1
            rcases List.mem_append.mp hp1 with h1 | h1
            · have := hold p h1; omega
            · simp only [List.mem_singleton] at h1
              rw [h1]; exact ht2
          · rw [List.chain'_append]
            refine ⟨hch, List.chain'_singleton _, ?_⟩
            intro x hx y hy
            simp only [List.head?_cons, Option.mem_def, Option.some.injEq] at hy
            subst hy
            have := hold x (List.mem_of_mem_getLast? hx)
            simp only []
            omega
      rcases hit : agent_iteration AH a b s with s1 | s1 | ⟨f, s1⟩
      · rw [hit] at hstep hlast1
        exact ih s1 hlast1 hstep.1 hstep.2
      · rw [hit] at hstep
        exact hstep.2
      · rw [hit] at hstep
        exact hstep.2

/-- C12: an iteration of the agent loop either leaves the list of passes and
`last_backfill_time` as they were, or runs one pass, and it runs it only when the reading
of `time(NULL)` after the sleep is at least `backfill_interval` past `last_backfill_time`.
With a clock that never goes back, in every run of `builtin_agent` each pass starts at
least the `backfill_interval` it was admitted under after the pass before it. -/
theorem C12_pass_spacing {σ : Type} (AH : AgentHost σ) (a b : List Request)
    (s : AgentState σ) (schedule : List (List Request × List Request)) (g : Globals)
    (l : Int) (h : σ) :
    ((passes (agent_iteration AH a b s).state.log = passes s.log ∧
        (agent_iteration AH a b s).state.last_backfill_time = s.last_backfill_time) ∨
      (∃ t, passes (agent_iteration AH a b s).state.log =
          passes s.log ++ [(t, (agent_iteration AH a b s).state.g.backfill_interval)] ∧
        (agent_iteration AH a b s).state.g.backfill_interval ≤
          difftime (clock AH.sched (_my_sleep AH s.g.backfill_interval a s).host)
            s.last_backfill_time)) ∧
    (clock_non_decreasing AH →
      List.Chain' (fun p1 p2 : Int × Int => p2.2 ≤ p2.1 - p1.1)
        (passes (builtin_agent AH schedule g l h).state.log)) := by
  constructor
  · rcases agent_iteration_passes AH a b s with h1 | ⟨t, h1, h2, _⟩
    · exact Or.inl h1
    · exact Or.inr ⟨t, h1, h2⟩
  · intro hmono
    unfold builtin_agent
    split
    · simp [Outcome.state, passes]
    · refine agent_loop_spacing AH hmono schedule _ ?_ ?_ ?_
      · exact hmono.1 h
      · simp [passes]
      · simp [passes]

/-- C12, applied: with the interval 30 the agent started at time 100 runs its passes at
130, 160, 190 and 220. -/
theorem C12_pass_spacing_witness :
    clock_non_decreasing demo_agent_host ∧
    passes (builtin_agent demo_agent_host [([], []), ([], []), ([], []), ([], [])]
      Globals.init 0 100).state.log = [(130, 30), (160, 30), (190, 30), (220, 30)] ∧
    List.Chain' (fun p1 p2 : Int × Int => p2.2 ≤ p2.1 - p1.1)
      (passes (builtin_agent demo_agent_host [([], []), ([], []), ([], []), ([], [])]
        Globals.init 0 100).state.log) := by
  have hmono : clock_non_decreasing demo_agent_host := by
    unfold clock_non_decreasing clock
    simp only [demo_agent_host, quick_host]
    refine ⟨fun _ => le_refl _, fun _ _ _ _ => le_refl _, fun _ _ _ _ _ _ => le_refl _,
      fun ts c => ?_, fun _ => le_refl _, fun _ => le_refl _⟩
    split <;> omega
  exact ⟨hmono, by decide,
    (C12_pass_spacing demo_agent_host [] [] demo_agent_state
      [([], []), ([], []), ([], []), ([], [])] Globals.init 0 100).2 hmono⟩

end SchedBuiltin

namespace Wiki2

/-! ## Lemmas on strings -/

theorem strchr_eq_none (s : List Char) (c : Char) : strchr s c = none ↔ c ∉ s := by
  induction s with
  | nil => simp [strchr]
  | cons x xs ih =>
    rw [strchr]
    by_cases hx : x = c
    · simp [hx]
    · rw [if_neg hx, ih]
      simp [Ne.symm hx]

theorem intercalate_cons_cons (sep a b : List Char) (l : List (List Char)) :
    List.intercalate sep (a :: b :: l) = a ++ sep ++ List.intercalate sep (b :: l) := by
  simp [List.intercalate, List.intersperse]

theorem intercalate_snoc (sep a : List Char) (l : List (List Char)) (hl : l ≠ []) :
    List.intercalate sep (l ++ [a]) = List.intercalate sep l ++ sep ++ a := by
  induction l with
  | nil => exact absurd rfl hl
  | cons x l ih =>
    cases l with
    | nil => simp [List.intercalate, List.intersperse]
    | cons y l =>
      rw [List.cons_append, List.cons_append, intercalate_cons_cons, intercalate_cons_cons,
        ← List.cons_append, ih (by simp)]
      simp [List.append_assoc]

theorem intercalate_eq_nil (sep : List Char) (l : List (List Char))
    (hne : ∀ a ∈ l, a ≠ []) : List.intercalate sep l = [] ↔ l = [] := by
  cases l with
  | nil => simp [List.intercalate]
  | cons a l =>
    have ha : a ≠ [] := hne a (by simp)
    cases l with
    | nil => simp [List.intercalate, ha]
    | cons b l => rw [intercalate_cons_cons]; simp [ha]

/-! ## Moab format 1 -/

/-- The loop of hostlist.c:92-97 maps `:` to `,` and counts the `:`. -/
theorem format1_loop_eq (s : List Char) (k : Int) :
    format1_loop s k =
      (s.map (fun c => if c = ':' then ',' else c), k + (s.count ':' : Int)) := by
  induction s generalizing k with
  | nil => simp [format1_loop]
  | cons c cs ih =>
    rw [format1_loop]
    by_cases hc : c = ':'
    · rw [if_pos hc, ih]
      simp [hc]
      omega
    · rw [if_neg hc, ih]
      have : ¬ (c == ':') = true := by simpa using hc
      simp [hc, List.count_cons, this]

/-- C15: for a task list without `*` the returned string is the input with every `:`
replaced by `,`, of the same length, and the task count is 0 for the empty string and
the number of `:` plus 1 otherwise, whether consumable resources are enabled or not. -/
theorem C15_format1 (hostlist_create : List Char → Option hostlist_t) (cr_enabled : Nat)
    (s : List Char) (hstar : '*' ∉ s) :
    moab2slurm_task_list hostlist_create cr_enabled s =
      (s.map (fun c => if c = ':' then ',' else c),
       if s = [] then 0 else (s.count ':' : Int) + 1) ∧
    (moab2slurm_task_list hostlist_create cr_enabled s).1.length = s.length := by
  have hnone := (strchr_eq_none s '*').mpr hstar
  have heq : moab2slurm_task_list hostlist_create cr_enabled s =
      (s.map (fun c => if c = ':' then ',' else c),
       if s = [] then 0 else (s.count ':' : Int) + 1) := by
    unfold moab2slurm_task_list
    rw [hnone]
    simp only []
    rw [format1_loop_eq]
    by_cases hs : s = []
    · simp [hs]
    · simp [hs]; omega
  exact ⟨heq, by rw [heq]; simp⟩

/-- C15, applied: `tux0:tux0:tux1:tux1:tux2` yields `tux0,tux0,tux1,tux1,tux2` with task
count 5. -/
theorem C15_format1_witness :
    '*' ∉ "tux0:tux0:tux1:tux1:tux2".toList ∧
    moab2slurm_task_list demo_hostlist_create 1 "tux0:tux0:tux1:tux1:tux2".toList =
      ("tux0,tux0,tux1,tux1,tux2".toList, 5) := by
  have hstar : '*' ∉ "tux0:tux0:tux1:tux1:tux2".toList := by decide
  refine ⟨hstar, ?_⟩
  rw [(C15_format1 demo_hostlist_create 1 "tux0:tux0:tux1:tux1:tux2".toList hstar).1]
  decide

/-! ## Consumable resources disabled -/

/-- C17 (the code departs from the claim): with consumable resources disabled the format 2
task list `tux[0-1]*2:tux2` yields `tux0,tux1,tux2`, each host once, but the format 1
task list `tux0:tux0:tux1:tux1:tux2` yields `tux0,tux0,tux1,tux1,tux2`, each host once
per cpu: the format 1 branch (hostlist.c:88-99) never looks at `cr_enabled`. -/
theorem C17_format1_ignores_cr_enabled :
    moab2slurm_task_list demo_hostlist_create 0 "tux[0-1]*2:tux2".toList =
      ("tux0,tux1,tux2".toList, 5) ∧
    moab2slurm_task_list demo_hostlist_create 0 "tux0:tux0:tux1:tux1:tux2".toList =
      ("tux0,tux0,tux1,tux1,tux2".toList, 5) ∧
    (moab2slurm_task_list demo_hostlist_create 0 "tux0:tux0:tux1:tux1:tux2".toList).1 ≠
      "tux0,tux1,tux2".toList := by
  decide

/-! ## What the tokens of a format 2 task list are -/

theorem strtok_tokens_append (p rest : List Char) (hp : ':' ∉ p) :
    ∀ cur, strtok_tokens ':' (p ++ rest) cur = strtok_tokens ':' rest (cur ++ p) := by
  induction p with
  | nil => intro cur; simp
  | cons c p ih =>
    intro cur
    have hc : c ≠ ':' := fun h => hp (by simp [h])
    rw [List.cons_append, strtok_tokens, if_neg hc, ih (fun h => hp (by simp [h]))]
    simp

/-- A task list written as non-empty pieces without `:`, separated by `:`, has exactly
these pieces as its tokens. -/
theorem strtok_tokens_intercalate (toks : List (List Char))
    (htoks : ∀ t ∈ toks, t ≠ [] ∧ ':' ∉ t) :
    strtok_tokens ':' (List.intercalate [':'] toks) [] = toks := by
  induction toks with
  | nil => simp [List.intercalate, strtok_tokens]
  | cons a l ih =>
    obtain ⟨ha, hac⟩ := htoks a (by simp)
    cases l with
    | nil =>
      have h := strtok_tokens_append a [] hac []
      simp only [List.append_nil, List.nil_append] at h
      simp only [List.intercalate, List.intersperse, List.flatten, List.append_nil]
      rw [h, strtok_tokens, if_neg ha]
    | cons b l =>
      rw [intercalate_cons_cons, List.append_assoc, strtok_tokens_append a _ hac []]
      simp only [List.nil_append, List.singleton_append]
      rw [strtok_tokens, if_pos rfl, if_neg ha, ih (fun t ht => htoks t (by simp [ht]))]

theorem strchr_append_star (e txt : List Char) (he : '*' ∉ e) :
    strchr (e ++ '*' :: txt) '*' = some ('*' :: txt) := by
  induction e with
  | nil => simp [strchr]
  | cons c e ih =>
    have hc : c ≠ '*' := fun h => he (by simp [h])
    rw [List.cons_append, strchr, if_neg hc, ih (fun h => he (by simp [h]))]

/-- A token `hostexpr*text` splits into the host expression and the number `atoi` reads
from the text; a token without `*` is a host expression with task count 1. -/
theorem split_token_eq (e txt : List Char) (he : '*' ∉ e) :
    split_token (e ++ '*' :: txt) = (e, SchedBuiltin.atoi txt) ∧ split_token e = (e, 1) := by
  constructor
  · unfold split_token
    rw [strchr_append_star e txt he]
    simp
  · unfold split_token
    rw [(strchr_eq_none e '*').mpr he]

/-! ## Moab format 2 with consumable resources enabled -/

/-- With consumable resources enabled the loop of hostlist.c:117-123 appends the host
`n` times to a comma-separated list of non-empty names. -/
theorem reps_loop_join (cr_enabled : Nat) (hcr : cr_enabled ≠ 0) (host : List Char)
    (hhost : host ≠ []) :
    ∀ (n : Nat) (names : List (List Char)), (∀ a ∈ names, a ≠ []) →
      reps_loop cr_enabled host n (List.intercalate [','] names) =
        List.intercalate [','] (names ++ List.replicate n host) := by
  intro n
  induction n with
  | zero => intro names _; simp [reps_loop]
  | succ n ih =>
    intro names hne
    rw [reps_loop, if_neg hcr]
    have hstep : (if List.intercalate [','] names ≠ [] then List.intercalate [','] names ++ [',']
        else List.intercalate [','] names) ++ host = List.intercalate [','] (names ++ [host]) := by
      by_cases hnil : names = []
      · subst hnil
        simp [List.intercalate]
      · have h1 : List.intercalate [','] names ≠ [] := by
          rw [Ne, intercalate_eq_nil _ _ hne]; exact hnil
        rw [if_pos h1, intercalate_snoc _ _ _ hnil]
    rw [hstep, ih (names ++ [host])]
    · rw [List.replicate_succ, List.append_assoc]
      rfl
    · intro a ha
      rcases List.mem_append.mp ha with h | h
      · exact hne a h
      · simp only [List.mem_singleton] at h
        rw [h]; exact hhost

/-- With consumable resources enabled and a task count that is not negative, the loop of
hostlist.c:116-126 appends every host of the list as often as the task count says and
advances the task count by the number of names appended. -/
theorem shift_loop_join (cr_enabled : Nat) (hcr : cr_enabled ≠ 0) (reps : Int)
    (hreps : 0 ≤ reps) :
    ∀ (hl : hostlist_t) (names : List (List Char)), (∀ a ∈ hl, a ≠ []) →
      (∀ a ∈ names, a ≠ []) →
      shift_loop cr_enabled reps hl (List.intercalate [','] names, (names.length : Int)) =
        (List.intercalate [','] (names ++ hl.flatMap (fun host => List.replicate reps.toNat host)),
         ((names ++ hl.flatMap (fun host => List.replicate reps.toNat host)).length : Int)) := by
  intro hl
  induction hl with
  | nil => intro names _ _; simp [shift_loop]
  | cons host hl ih =>
    intro names hhl hne
    rw [shift_loop]
    simp only []
    rw [reps_loop_join cr_enabled hcr host (hhl host (by simp)) reps.toNat names hne]
    have hlen : (names.length : Int) + reps =
        ((names ++ List.replicate reps.toNat host).length : Int) := by
      simp only [List.length_append, List.length_replicate]
      omega
    rw [hlen, ih (names ++ List.replicate reps.toNat host)]
    · simp [List.flatMap_cons, List.append_assoc]
    · intro a ha; exact hhl a (by simp [ha])
    · intro a ha
      rcases List.mem_append.mp ha with h | h
      · exact hne a h
      · rw [(List.mem_replicate.mp h).2]; exact hhl host (by simp)

/-- Every task name of a token is a host of the expansion of its host expression. -/
theorem token_names_ne_nil (hostlist_create : List Char → Option hostlist_t) (tok : List Char)
    (hhosts : ∀ hl, hostlist_create (split_token tok).1 = some hl → ∀ host ∈ hl, host ≠ []) :
    ∀ a ∈ token_names hostlist_create tok, a ≠ [] := by
  intro a ha
  unfold token_names at ha
  rcases hc : hostlist_create (split_token tok).1 with _ | hl
  · rw [hc] at ha; simp at ha
  · rw [hc] at ha
    simp only [Option.getD_some, List.mem_flatMap] at ha
    obtain ⟨host, hmem, hrep⟩ := ha
    rw [(List.mem_replicate.mp hrep).2]
    exact hhosts hl hc host hmem

/-- With consumable resources enabled the loop of hostlist.c:105-131 appends the task names
of every token and counts them. -/
theorem token_loop_join (hostlist_create : List Char → Option hostlist_t) (cr_enabled : Nat)
    (hcr : cr_enabled ≠ 0) :
    ∀ (toks : List (List Char)) (names : List (List Char)),
      (∀ tok ∈ toks, 0 ≤ (split_token tok).2 ∧
        ∀ hl, hostlist_create (split_token tok).1 = some hl → ∀ host ∈ hl, host ≠ []) →
      (∀ a ∈ names, a ≠ []) →
      token_loop hostlist_create cr_enabled toks
          (List.intercalate [','] names, (names.length : Int)) =
        (List.intercalate [','] (names ++ toks.flatMap (token_names hostlist_create)),
         ((names ++ toks.flatMap (token_names hostlist_create)).length : Int)) := by
  intro toks
  induction toks with
  | nil => intro names _ _; simp [token_loop]
  | cons tok toks ih =>
    intro names htoks hne
    have htok := htoks tok (by simp)
    have hrest : ∀ t ∈ toks, 0 ≤ (split_token t).2 ∧
        ∀ hl, hostlist_create (split_token t).1 = some hl → ∀ host ∈ hl, host ≠ [] :=
      fun t ht => htoks t (by simp [ht])
    rw [token_loop]
    rcases hc : hostlist_create (split_token tok).1 with _ | hl
    · simp only []
      rw [ih names hrest hne]
      simp [List.flatMap_cons, token_names, hc]
    · simp only []
      rw [shift_loop_join cr_enabled hcr _ htok.1 hl names (htok.2 hl hc) hne, ih _ hrest]
      · simp [List.flatMap_cons, token_names, hc, List.append_assoc]
      · intro a ha
        rcases List.mem_append.mp ha with h | h
        · exact hne a h
        · exact token_names_ne_nil hostlist_create tok htok.2 a
            (by unfold token_names; rw [hc]; exact h)

/-- With consumable resources enabled, for a task list that contains a `*`, whose
tokens between `:` have task counts that are not negative (1 when the token has no `*`)
and host expressions that expand to non-empty host names, the returned string is the
comma-separated list that names, token by token and host by host in the order of the
expansion, every host as often as the task count of its token says, and the task count
reported is the number of names in that list. -/
theorem moab2slurm_format2_tokens (hostlist_create : List Char → Option hostlist_t) (cr_enabled : Nat)
    (s : List Char) (hcr : cr_enabled ≠ 0) (hstar : '*' ∈ s)
    (htoks : ∀ tok ∈ strtok_tokens ':' s [], 0 ≤ (split_token tok).2 ∧
      ∀ hl, hostlist_create (split_token tok).1 = some hl → ∀ host ∈ hl, host ≠ []) :
    moab2slurm_task_list hostlist_create cr_enabled s =
      (List.intercalate [','] ((strtok_tokens ':' s []).flatMap (token_names hostlist_create)),
       (((strtok_tokens ':' s []).flatMap (token_names hostlist_create)).length : Int)) := by
  unfold moab2slurm_task_list
  rcases hc : strchr s '*' with _ | tmp1
  · exact absurd hstar ((strchr_eq_none s '*').mp hc)
  · simp only []
    have h := token_loop_join hostlist_create cr_enabled hcr (strtok_tokens ':' s []) []
      htoks (by simp)
    simpa [List.intercalate] using h

/-- A written token is not empty when its host expression is not. -/
theorem render_token_ne_nil (t : List Char × Option Nat) (h : t.1 ≠ []) :
    render_token t ≠ [] := by
  unfold render_token
  split
  · simp [h]
  · exact h

/-- A written token has no `:` when its host expression has none. -/
theorem colon_not_mem_render_token (t : List Char × Option Nat) (h : ':' ∉ t.1) :
    ':' ∉ render_token t := by
  unfold render_token
  split
  · rename_i reps _
    simp only [List.mem_append, List.mem_cons, not_or]
    refine ⟨h, by decide, ?_⟩
    intro hmem
    have := (SchedBuiltin.toDigits_spec reps).2.1 ':' hmem
    exact absurd this (by decide)
  · exact h

/-- The code splits a written token into its host expression and its task count, as long
as the host expression has no `*` and the count lies in the range of `int`. -/
theorem split_token_render_token (t : List Char × Option Nat) (hstar : '*' ∉ t.1)
    (hreps : token_reps t ≤ 2147483647) :
    split_token (render_token t) = (t.1, (token_reps t : Int)) := by
  obtain ⟨e, r⟩ := t
  cases r with
  | none => exact (split_token_eq e [] hstar).2
  | some reps =>
    have h := (split_token_eq e (Nat.toDigits 10 reps) hstar).1
    have ha := SchedBuiltin.atoi_toDigits reps hreps
    simp only [render_token, token_reps] at *
    rw [h, ha]

theorem mem_intercalate (sep : List Char) (c : Char) :
    ∀ (l : List (List Char)) (x : List Char), x ∈ l → c ∈ x → c ∈ List.intercalate sep l := by
  intro l
  induction l with
  | nil => intro x hx; simp at hx
  | cons a l ih =>
    intro x hx hc
    cases l with
    | nil =>
      simp only [List.mem_singleton] at hx
      subst hx
      simpa [List.intercalate] using hc
    | cons b l =>
      rw [intercalate_cons_cons]
      rcases List.mem_cons.mp hx with h | h
      · subst h; simp [hc]
      · simp only [List.mem_append]
        exact Or.inr (ih x h hc)

theorem length_flatMap_replicate (n : Nat) (hl : hostlist_t) :
    (hl.flatMap (fun host => List.replicate n host)).length = n * hl.length := by
  induction hl with
  | nil => simp
  | cons host hl ih =>
    simp only [List.flatMap_cons, List.length_append, List.length_replicate, ih,
      List.length_cons]
    rw [Nat.mul_succ]; omega

/-- The names that the code reads from written tokens are the names the tokens stand for. -/
theorem flatMap_token_names_render (hostlist_create : List Char → Option hostlist_t) :
    ∀ (toks : List (List Char × Option Nat)),
      (∀ t ∈ toks, '*' ∉ t.1 ∧ token_reps t ≤ 2147483647) →
      (toks.map render_token).flatMap (token_names hostlist_create) =
        format2_names hostlist_create toks := by
  intro toks
  induction toks with
  | nil => intro _; rfl
  | cons t toks ih =>
    intro h
    have ht := h t (by simp)
    have hs := split_token_render_token t ht.1 ht.2
    unfold format2_names at ih ⊢
    rw [List.map_cons, List.flatMap_cons, List.flatMap_cons,
      ih (fun x hx => h x (by simp [hx]))]
    congr 1
    unfold token_names
    rw [hs]
    simp

/-- C16 as stated fails: with consumable resources enabled the token `tux2*4294967297`,
a host expression with the task count 4294967297, yields the single name `tux2` and the
task count 1, since the count is kept in an `int`. -/
theorem C16_counterexample :
    render_token ("tux2".toList, some 4294967297) = "tux2*4294967297".toList ∧
    demo_hostlist_create "tux2".toList = some ["tux2".toList] ∧
    moab2slurm_task_list demo_hostlist_create 1 "tux2*4294967297".toList =
      ("tux2".toList, 1) := by
  decide

/-- C16 (amended): with consumable resources enabled, for a task list written as tokens
separated by `:`, each a host expression (not empty, without `:` and `*`) alone or
followed by `*` and a task count in decimal that is at most 2147483647, at least one
token carrying a count, and every host expression expanding to non-empty host names, the
returned string is the comma-separated list that names, token by token and host by host
in the order of the expansion, every host as often as the task count of its token says
(once when it carries none); the task count reported is the number of names in that
list, which is the sum over the tokens of the task count times the number of hosts. -/
theorem C16_format2 (hostlist_create : List Char → Option hostlist_t) (cr_enabled : Nat)
    (toks : List (List Char × Option Nat)) (hcr : cr_enabled ≠ 0)
    (hstar : ∃ t ∈ toks, t.2.isSome)
    (htoks : ∀ t ∈ toks, t.1 ≠ [] ∧ ':' ∉ t.1 ∧ '*' ∉ t.1 ∧ token_reps t ≤ 2147483647 ∧
      ∃ hl, hostlist_create t.1 = some hl ∧ ∀ host ∈ hl, host ≠ []) :
    moab2slurm_task_list hostlist_create cr_enabled
        (List.intercalate [':'] (toks.map render_token)) =
      (List.intercalate [','] (format2_names hostlist_create toks),
       ((format2_names hostlist_create toks).length : Int)) ∧
    (format2_names hostlist_create toks).length =
      (toks.map (fun t => token_reps t * ((hostlist_create t.1).getD []).length)).sum := by
  constructor
  · have htokens : strtok_tokens ':' (List.intercalate [':'] (toks.map render_token)) [] =
        toks.map render_token := by
      apply strtok_tokens_intercalate
      intro x hx
      obtain ⟨t, ht, rfl⟩ := List.mem_map.mp hx
      exact ⟨render_token_ne_nil t (htoks t ht).1,
        colon_not_mem_render_token t (htoks t ht).2.1⟩
    have hmem : '*' ∈ List.intercalate [':'] (toks.map render_token) := by
      obtain ⟨t, ht, hsome⟩ := hstar
      refine mem_intercalate _ _ _ (render_token t) (List.mem_map.mpr ⟨t, ht, rfl⟩) ?_
      obtain ⟨e, r⟩ := t
      cases r with
      | none => simp at hsome
      | some reps => simp [render_token]
    have h := moab2slurm_format2_tokens hostlist_create cr_enabled _ hcr hmem (by
      rw [htokens]
      intro tok htok
      obtain ⟨t, ht, rfl⟩ := List.mem_map.mp htok
      obtain ⟨_, _, h3, h4, hl, hhl, hne⟩ := htoks t ht
      rw [split_token_render_token t h3 h4]
      refine ⟨by simp, ?_⟩
      intro hl1 hhl1
      rw [hhl] at hhl1
      cases hhl1
      exact hne)
    rw [h, htokens,
      flatMap_token_names_render hostlist_create toks (fun t ht =>
        ⟨(htoks t ht).2.2.1, (htoks t ht).2.2.2.1⟩)]
  · unfold format2_names
    clear hstar htoks
    induction toks with
    | nil => rfl
    | cons t toks ih =>
      rw [List.flatMap_cons, List.length_append, ih, length_flatMap_replicate]
      simp

/-- C16 (amended), applied: `tux[0-1]*2:tux2` yields `tux0,tux0,tux1,tux1,tux2` with task
count 5, as the format 1 task list `tux0:tux0:tux1:tux1:tux2` does; and
`tux[0-1]*12:tux2` yields 25 names. -/
theorem C16_format2_witness :
    List.intercalate [':'] ([("tux[0-1]".toList, some 2), ("tux2".toList, none)].map
      render_token) = "tux[0-1]*2:tux2".toList ∧
    moab2slurm_task_list demo_hostlist_create 1 "tux[0-1]*2:tux2".toList =
      ("tux0,tux0,tux1,tux1,tux2".toList, 5) ∧
    moab2slurm_task_list demo_hostlist_create 1 "tux[0-1]*2:tux2".toList =
      moab2slurm_task_list demo_hostlist_create 1 "tux0:tux0:tux1:tux1:tux2".toList ∧
    List.intercalate [':'] ([("tux[0-1]".toList, some 12), ("tux2".toList, none)].map
      render_token) = "tux[0-1]*12:tux2".toList ∧
    (moab2slurm_task_list demo_hostlist_create 1 "tux[0-1]*12:tux2".toList).2 = 25 := by
  have hyp : ∀ (n : Nat), n ≤ 2147483647 →
      ∀ t ∈ [("tux[0-1]".toList, some n), ("tux2".toList, (none : Option Nat))],
        t.1 ≠ [] ∧ ':' ∉ t.1 ∧ '*' ∉ t.1 ∧ token_reps t ≤ 2147483647 ∧
        ∃ hl, demo_hostlist_create t.1 = some hl ∧ ∀ host ∈ hl, host ≠ [] := by
    intro n hn t ht
    simp only [List.mem_cons, List.mem_singleton, List.not_mem_nil, or_false] at ht
    rcases ht with rfl | rfl
    · exact ⟨show "tux[0-1]".toList ≠ [] by decide, show ':' ∉ "tux[0-1]".toList by decide,
        show '*' ∉ "tux[0-1]".toList by decide, hn, ["tux0".toList, "tux1".toList],
        show demo_hostlist_create "tux[0-1]".toList = some ["tux0".toList, "tux1".toList]
          by decide,
        by decide⟩
    · exact ⟨by decide, by decide, by decide, by decide,
        ["tux2".toList], by decide, by decide⟩
  have h2 := (C16_format2 demo_hostlist_create 1
    [("tux[0-1]".toList, some 2), ("tux2".toList, none)] (by decide)
    ⟨_, List.mem_cons_self _ _, rfl⟩ (hyp 2 (by decide))).1
  have h12 := (C16_format2 demo_hostlist_create 1
    [("tux[0-1]".toList, some 12), ("tux2".toList, none)] (by decide)
    ⟨_, List.mem_cons_self _ _, rfl⟩ (hyp 12 (by decide))).1
  have e2 : List.intercalate [':'] ([("tux[0-1]".toList, some 2), ("tux2".toList, none)].map
      render_token) = "tux[0-1]*2:tux2".toList := by decide
  have e12 : List.intercalate [':'] ([("tux[0-1]".toList, some 12), ("tux2".toList, none)].map
      render_token) = "tux[0-1]*12:tux2".toList := by decide
  rw [e2] at h2
  rw [e12] at h12
  refine ⟨e2, ?_, ?_, e12, ?_⟩
  · rw [h2]; decide
  · rw [h2]; decide
  · rw [h12]; decide

/-! ## Reporting a job's tasks -/

/-- The loop of hostlist.c:194-198 appends the host `n` times to the names reported so
far. -/
theorem cpu_loop_join (host : List Char) :
    ∀ (n : Nat) (names : List (List Char)),
      cpu_loop host n (join_or_null names) = join_or_null (names ++ List.replicate n host) := by
  intro n
  induction n with
  | zero => intro names; simp [cpu_loop]
  | succ n ih =>
    intro names
    rw [cpu_loop]
    have hstep : xstrcat (if (join_or_null names).isSome then xstrcat (join_or_null names) [':']
        else join_or_null names) host = join_or_null (names ++ [host]) := by
      by_cases hnil : names = []
      · subst hnil
        simp [join_or_null, xstrcat, List.intercalate]
      · simp only [join_or_null, if_neg hnil, Option.isSome_some, if_true, xstrcat,
          Option.getD_some]
        rw [if_neg (by simp), intercalate_snoc _ _ _ hnil]
    rw [hstep, ih (names ++ [host]), List.replicate_succ, List.append_assoc]
    rfl

/-- The loop of hostlist.c:186-200 appends, host by host, every host as often as its entry
of `alloc_lps` says, for the entries `i` to `i + n - 1` and as far as there are hosts. -/
theorem node_loop_join (job_ptr : job_record) :
    ∀ (n i : Nat) (hl : hostlist_t) (names : List (List Char)),
      node_loop job_ptr n i hl (join_or_null names) =
        join_or_null (names ++ task_names hl ((job_ptr.alloc_lps.drop i).take n)) := by
  intro n
  induction n with
  | zero => intro i hl names; simp [node_loop, task_names]
  | succ n ih =>
    intro i hl names
    cases hl with
    | nil => simp [node_loop, task_names]
    | cons host hl =>
      rw [node_loop, cpu_loop_join, ih]
      congr 1
      rw [List.append_assoc]
      congr 1
      by_cases hi : i < job_ptr.alloc_lps.length
      · have hd : job_ptr.alloc_lps.drop i =
            job_ptr.alloc_lps[i] :: job_ptr.alloc_lps.drop (i + 1) := by
          rw [List.drop_eq_getElem_cons hi]
        have hg : job_ptr.alloc_lps.getD i 0 = job_ptr.alloc_lps[i] := by
          simp [List.getD_eq_getElem?_getD, List.getElem?_eq_getElem hi]
        rw [hd, hg]
        simp only [task_names, List.take_succ_cons, List.zip_cons_cons, List.flatMap_cons]
      · have hd : job_ptr.alloc_lps.drop i = [] := List.drop_eq_nil_of_le (by omega)
        have hd1 : job_ptr.alloc_lps.drop (i + 1) = [] := List.drop_eq_nil_of_le (by omega)
        have hg : job_ptr.alloc_lps.getD i 0 = 0 := by
          simp [List.getD_eq_getElem?_getD, List.getElem?_eq_none (Nat.le_of_not_lt hi)]
        rw [hd, hd1, hg]
        simp [task_names]

/-- Counts beyond the number of hosts do not matter to the pairing of hosts and counts. -/
theorem zip_take_of_le :
    ∀ (hosts : hostlist_t) (counts : List Nat) (k : Nat), hosts.length ≤ k →
      hosts.zip (counts.take k) = hosts.zip counts := by
  intro hosts
  induction hosts with
  | nil => intro counts k _; simp
  | cons host hosts ih =>
    intro counts k hk
    cases counts with
    | nil => simp
    | cons c counts =>
      cases k with
      | zero => simp at hk
      | succ k =>
        rw [List.take_succ_cons, List.zip_cons_cons, List.zip_cons_cons,
          ih counts k (by simpa using hk)]

/-- When every count has a host, there are as many task names as the counts add up to. -/
theorem task_names_length :
    ∀ (hosts : hostlist_t) (counts : List Nat), counts.length ≤ hosts.length →
      (task_names hosts counts).length = counts.sum := by
  intro hosts
  induction hosts with
  | nil =>
    intro counts hlen
    have : counts = [] := List.eq_nil_of_length_eq_zero (by simpa using hlen)
    simp [this, task_names]
  | cons host hosts ih =>
    intro counts hlen
    cases counts with
    | nil => simp [task_names]
    | cons c counts =>
      have h := ih counts (by simpa using hlen)
      unfold task_names at h ⊢
      simp [List.zip_cons_cons, List.flatMap_cons, h]

/-- C18: when the node list of the job expands, the returned string names, separated by
`:`, host `i` of the expansion exactly `alloc_lps[i]` times in a row, for the first
`alloc_lps_cnt` entries in order and as far as there are hosts, and it is NULL when
there is no such name.  When there are at least `alloc_lps_cnt` hosts it is NULL exactly
when those counts add up to 0; when there are fewer hosts only the counts of the hosts
present are used.  When `hostlist_create` fails the result is NULL. -/
theorem C18_job_task_list (hostlist_create : List Char → Option hostlist_t)
    (job_ptr : job_record) :
    (hostlist_create job_ptr.nodes = none →
      slurm_job2moab_task_list hostlist_create job_ptr = none) ∧
    (∀ hosts, hostlist_create job_ptr.nodes = some hosts →
      slurm_job2moab_task_list hostlist_create job_ptr =
        join_or_null (task_names hosts (job_ptr.alloc_lps.take job_ptr.alloc_lps_cnt)) ∧
      (job_ptr.alloc_lps_cnt ≤ hosts.length →
        (slurm_job2moab_task_list hostlist_create job_ptr = none ↔
          (job_ptr.alloc_lps.take job_ptr.alloc_lps_cnt).sum = 0)) ∧
      (hosts.length < job_ptr.alloc_lps_cnt →
        slurm_job2moab_task_list hostlist_create job_ptr =
          join_or_null (task_names hosts (job_ptr.alloc_lps.take hosts.length)))) := by
  constructor
  · intro hnone
    unfold slurm_job2moab_task_list
    rw [hnone]
  · intro hosts hsome
    have heq : slurm_job2moab_task_list hostlist_create job_ptr =
        join_or_null (task_names hosts (job_ptr.alloc_lps.take job_ptr.alloc_lps_cnt)) := by
      unfold slurm_job2moab_task_list
      rw [hsome]
      have h := node_loop_join job_ptr job_ptr.alloc_lps_cnt 0 hosts []
      simpa [join_or_null] using h
    refine ⟨heq, ?_, ?_⟩
    · intro hlen
      have hl := task_names_length hosts (job_ptr.alloc_lps.take job_ptr.alloc_lps_cnt)
        (by rw [List.length_take]; omega)
      rw [heq, ← hl]
      unfold join_or_null
      split
      · rename_i hnil; simp [hnil]
      · rename_i hnil; simp [hnil]
    · intro hlen
      rw [heq]
      congr 1
      unfold task_names
      congr 1
      rw [zip_take_of_le hosts job_ptr.alloc_lps job_ptr.alloc_lps_cnt (by omega),
        zip_take_of_le hosts job_ptr.alloc_lps hosts.length (le_refl _)]

/-- C18, applied: the job on `tux[0-2]` with 2, 2 and 1 cpus is reported as
`tux0:tux0:tux1:tux1:tux2`. -/
theorem C18_job_task_list_witness :
    demo_hostlist_create demo_job.nodes =
      some ["tux0".toList, "tux1".toList, "tux2".toList] ∧
    slurm_job2moab_task_list demo_hostlist_create demo_job =
      some "tux0:tux0:tux1:tux1:tux2".toList := by
  have hc : demo_hostlist_create demo_job.nodes =
      some ["tux0".toList, "tux1".toList, "tux2".toList] := by decide
  refine ⟨hc, ?_⟩
  rw [((C18_job_task_list demo_hostlist_create demo_job).2 _ hc).1]
  decide

/-! ## Round trip -/

theorem map_intercalate (names : List (List Char)) (hcolon : ∀ a ∈ names, ':' ∉ a) :
    (List.intercalate [':'] names).map (fun c => if c = ':' then ',' else c) =
      List.intercalate [','] names := by
  have hname : ∀ a : List Char, ':' ∉ a →
      a.map (fun c => if c = ':' then ',' else c) = a := by
    intro a ha
    induction a with
    | nil => rfl
    | cons x xs ih =>
      have hx : x ≠ ':' := fun h => ha (by simp [h])
      simp only [List.map_cons, if_neg hx]
      rw [ih (fun h => ha (by simp [h]))]
  induction names with
  | nil => simp [List.intercalate]
  | cons a names ih =>
    cases names with
    | nil => simpa [List.intercalate] using hname a (hcolon a (by simp))
    | cons b names =>
      rw [intercalate_cons_cons, intercalate_cons_cons, List.map_append, List.map_append,
        ih (fun x hx => hcolon x (by simp [hx])), hname a (hcolon a (by simp))]
      simp

theorem count_intercalate (names : List (List Char)) (hcolon : ∀ a ∈ names, ':' ∉ a)
    (hne : names ≠ []) :
    (List.intercalate [':'] names).count ':' + 1 = names.length := by
  induction names with
  | nil => exact absurd rfl hne
  | cons a names ih =>
    have ha : a.count ':' = 0 := List.count_eq_zero.mpr (hcolon a (by simp))
    cases names with
    | nil => simp [List.intercalate, ha]
    | cons b names =>
      rw [intercalate_cons_cons, List.count_append, List.count_append, ha]
      have := ih (fun x hx => hcolon x (by simp [hx])) (by simp)
      simp only [List.length_cons] at this ⊢
      simp only [List.count_singleton_self]
      omega

theorem not_mem_intercalate (c : Char) (hc : c ≠ ':') (names : List (List Char))
    (hnot : ∀ a ∈ names, c ∉ a) : c ∉ List.intercalate [':'] names := by
  induction names with
  | nil => simp [List.intercalate]
  | cons a names ih =>
    cases names with
    | nil => simpa [List.intercalate] using hnot a (by simp)
    | cons b names =>
      rw [intercalate_cons_cons]
      simp only [List.mem_append, List.mem_singleton, not_or]
      exact ⟨⟨hnot a (by simp), hc⟩, ih (fun x hx => hnot x (by simp [hx]))⟩

/-- Every task name is one of the hosts. -/
theorem mem_task_names (hosts : hostlist_t) (counts : List Nat) :
    ∀ a ∈ task_names hosts counts, a ∈ hosts := by
  intro a ha
  unfold task_names at ha
  simp only [List.mem_flatMap] at ha
  obtain ⟨p, hp, hrep⟩ := ha
  rw [(List.mem_replicate.mp hrep).2]
  exact (List.of_mem_zip hp).1

/-- C19: for a job whose node list expands to at least `alloc_lps_cnt` hosts, with host
names that are not empty and contain neither `:` nor `*`, and whose first
`alloc_lps_cnt` cpu counts add up to more than 0, `slurm_job2moab_task_list` returns a
string, and `moab2slurm_task_list` applied to it reports the sum of those counts as task
count and returns the comma-separated list that names host `i` exactly `alloc_lps[i]`
times, in the order of the hosts. -/
theorem C19_round_trip (hostlist_create : List Char → Option hostlist_t) (cr_enabled : Nat)
    (job_ptr : job_record) (hosts : hostlist_t)
    (hcreate : hostlist_create job_ptr.nodes = some hosts)
    (hlen : job_ptr.alloc_lps_cnt ≤ hosts.length)
    (hnames : ∀ a ∈ hosts, a ≠ [] ∧ ':' ∉ a ∧ '*' ∉ a)
    (hpos : 0 < (job_ptr.alloc_lps.take job_ptr.alloc_lps_cnt).sum) :
    ∃ moab, slurm_job2moab_task_list hostlist_create job_ptr = some moab ∧
      moab2slurm_task_list hostlist_create cr_enabled moab =
        (List.intercalate [',']
          (task_names hosts (job_ptr.alloc_lps.take job_ptr.alloc_lps_cnt)),
         ((job_ptr.alloc_lps.take job_ptr.alloc_lps_cnt).sum : Int)) := by
  have hnl : node_loop job_ptr job_ptr.alloc_lps_cnt 0 hosts none =
      join_or_null (task_names hosts (job_ptr.alloc_lps.take job_ptr.alloc_lps_cnt)) := by
    have h := node_loop_join job_ptr job_ptr.alloc_lps_cnt 0 hosts []
    rw [List.drop_zero, List.nil_append] at h
    exact h
  have hl := task_names_length hosts (job_ptr.alloc_lps.take job_ptr.alloc_lps_cnt)
    (by rw [List.length_take]; omega)
  have hmem := mem_task_names hosts (job_ptr.alloc_lps.take job_ptr.alloc_lps_cnt)
  generalize task_names hosts (job_ptr.alloc_lps.take job_ptr.alloc_lps_cnt) = names
    at hnl hl hmem ⊢
  have hne : names ≠ [] := by
    intro h
    rw [h] at hl
    simp at hl
    omega
  refine ⟨List.intercalate [':'] names, ?_, ?_⟩
  · unfold slurm_job2moab_task_list
    rw [hcreate]
    simpa [join_or_null, hne] using hnl
  · have hstar : '*' ∉ List.intercalate [':'] names :=
      not_mem_intercalate '*' (by decide) names (fun a ha => (hnames a (hmem a ha)).2.2)
    have hnonempty : List.intercalate [':'] names ≠ [] := by
      rw [Ne, intercalate_eq_nil _ _ (fun a ha => (hnames a (hmem a ha)).1)]
      exact hne
    have hcolon : ∀ a ∈ names, ':' ∉ a := fun a ha => (hnames a (hmem a ha)).2.1
    unfold moab2slurm_task_list
    rw [(strchr_eq_none _ '*').mpr hstar]
    simp only []
    rw [format1_loop_eq, if_pos hnonempty, map_intercalate names hcolon]
    have hcnt := count_intercalate names hcolon hne
    congr 1
    rw [← hl]
    omega

/-- C19, applied: the job on `tux[0-2]` with 2, 2 and 1 cpus goes to
`tux0:tux0:tux1:tux1:tux2` and back to `tux0,tux0,tux1,tux1,tux2` with task count 5. -/
theorem C19_round_trip_witness :
    slurm_job2moab_task_list demo_hostlist_create demo_job =
      some "tux0:tux0:tux1:tux1:tux2".toList ∧
    moab2slurm_task_list demo_hostlist_create 0 "tux0:tux0:tux1:tux1:tux2".toList =
      ("tux0,tux0,tux1,tux1,tux2".toList, 5) := by
  obtain ⟨moab, h1, h2⟩ := C19_round_trip demo_hostlist_create 0 demo_job
    ["tux0".toList, "tux1".toList, "tux2".toList] (by decide) (by decide) (by decide)
    (by decide)
  have hm : slurm_job2moab_task_list demo_hostlist_create demo_job =
      some "tux0:tux0:tux1:tux1:tux2".toList := by decide
  rw [hm] at h1
  cases h1
  refine ⟨hm, ?_⟩
  rw [h2]
  decide

end Wiki2
